import Mathlib

/-!
Verification of the nqlstore query translator and store drivers.

This file shallowly embeds the parts of the nqlstore repository that the
frozen claims are about:

* nqlstore/query/parsers.py : the QueryParser registry, the predicate
  classes and their to_sqlalchemy / to_redis emissions,
* nqlstore/_sql.py          : filter classification, the subquery rewrite,
  find, delete, update (one-to-many replace path) and insert with a
  many-to-many relation,
* nqlstore/_mongo.py        : the delete flow and the update-dict wrapping,
* nqlstore/_redis.py        : the delete flow.

Dynamic Python values (selector dicts, records) are embedded as the deep
type DVal.  Python exceptions raised while translating or executing are
embedded as the PyErr type and functions that can raise return Except.
-/

namespace NqlStore

/-- Dynamic JSON-like Python values: the payloads of selectors, the values
of record attributes, and the items handed to insert and update. -/
inductive DVal where
  | vint  (n : Int)
  | vstr  (s : String)
  | vbool (b : Bool)
  | vnull
  | vlist (xs : List DVal)
  | vdict (kvs : List (String × DVal))

mutual

/-- Structural equality of dynamic values (the == of Python on these
JSON-like values). -/
def DVal.beq : DVal → DVal → Bool
  | .vint a, .vint b => a == b
  | .vstr a, .vstr b => a == b
  | .vbool a, .vbool b => a == b
  | .vnull, .vnull => true
  | .vlist xs, .vlist ys => DVal.beqList xs ys
  | .vdict xs, .vdict ys => DVal.beqDict xs ys
  | _, _ => false

/-- Element-wise equality of value lists. -/
def DVal.beqList : List DVal → List DVal → Bool
  | [], [] => true
  | x :: xs, y :: ys => DVal.beq x y && DVal.beqList xs ys
  | _, _ => false

/-- Entry-wise equality of dicts (order-sensitive; all dicts in this file
are used as ordered association lists). -/
def DVal.beqDict : List (String × DVal) → List (String × DVal) → Bool
  | [], [] => true
  | (k, x) :: xs, (l, y) :: ys => k == l && DVal.beq x y && DVal.beqDict xs ys
  | _, _ => false

end

instance instBEqDVal : BEq DVal := ⟨DVal.beq⟩

/-- Python exceptions that the translated code can raise.
attributeError stands for AttributeError (for example calling .items() on a
non-dict, or a missing model attribute), typeError for TypeError (for
example functools.reduce over an empty list), notImplementedError for
NotImplementedError, valueError for ValueError and invalidRequestError for
sqlalchemy.exc.InvalidRequestError (raised when a relationship attribute is
compared against a non-None value, "Can't compare a collection against an
object or collection"). -/
inductive PyErr where
  | attributeError
  | typeError
  | notImplementedError (msg : String)
  | valueError
  | invalidRequestError
  deriving DecidableEq, Repr

/-- The comparison operators that emit native field comparisons:
$eq, $gt, $gte, $in, $lt, $lte, $ne, $nin. -/
inductive CmpOp where
  | eq | gt | gte | opIn | lt | lte | ne | nin
  deriving DecidableEq, Repr

/-- The kind of predicate class a registry entry maps to. -/
inductive RegKind where
  | cmpK (op : CmpOp)
  | notK
  | andK
  | orK
  | norK
  | regexK
  | mongoK
  deriving DecidableEq, Repr

/-- QueryParser._parsers from nqlstore/query/parsers.py: the registry that
maps a selector key to its predicate class.  Keys absent from this map are
handled by QueryParser._get_predicate_cls. -/
def registryLookup (k : String) : Option RegKind :=
  if k = "$eq" then some (.cmpK .eq)
  else if k = "$gt" then some (.cmpK .gt)
  else if k = "$gte" then some (.cmpK .gte)
  else if k = "$in" then some (.cmpK .opIn)
  else if k = "$lt" then some (.cmpK .lt)
  else if k = "$lte" then some (.cmpK .lte)
  else if k = "$ne" then some (.cmpK .ne)
  else if k = "$nin" then some (.cmpK .nin)
  else if k = "$not" then some .notK
  else if k = "$and" then some .andK
  else if k = "$nor" then some .norK
  else if k = "$or" then some .orK
  else if k = "$regex" then some .regexK
  else if k = "$exists" then some .mongoK
  else if k = "$type" then some .mongoK
  else if k = "$expr" then some .mongoK
  else if k = "$jsonSchema" then some .mongoK
  else if k = "$mod" then some .mongoK
  else if k = "$text" then some .mongoK
  else if k = "$where" then some .mongoK
  else if k = "$geoIntersects" then some .mongoK
  else if k = "$geoWithin" then some .mongoK
  else if k = "$near" then some .mongoK
  else if k = "$nearSphere" then some .mongoK
  else if k = "$all" then some .mongoK
  else if k = "$elemMatch" then some .mongoK
  else if k = "$size" then some .mongoK
  else if k = "$bitsAllClear" then some .mongoK
  else if k = "$bitsAllSet" then some .mongoK
  else if k = "$bitsAnyClear" then some .mongoK
  else if k = "$bitsAnySet" then some .mongoK
  else if k = "$" then some .mongoK
  else if k = "$meta" then some .mongoK
  else if k = "$slice" then some .mongoK
  else if k = "$rand" then some .mongoK
  else if k = "$natural" then some .mongoK
  else if k = "$options" then some .mongoK
  else none

/-- Python str.startswith applied to the one-character separator "$": true
exactly when the first character is a dollar sign. -/
def startsDollar (k : String) : Bool :=
  match k.data with
  | c :: _ => c == '$'
  | [] => false

/-- Grouping of the remaining characters up to the next dot, used below. -/
def splitDotsGo : List Char → List Char → List String
  | [], acc => [String.mk acc.reverse]
  | c :: cs, acc =>
    if c = '.' then String.mk acc.reverse :: splitDotsGo cs []
    else splitDotsGo cs (c :: acc)

/-- Python path.split with the one-character separator ".": splits on every
dot and keeps empty segments, so the result is always non-empty. -/
def splitDots (s : String) : List String :=
  splitDotsGo s.data []

/-- A SQL model as the translator sees it: a table name, whether the bound
engine dialect is sqlite (used by RegexPredicate.to_sqlalchemy), the plain
column names, and the relationship attributes with their target models. -/
inductive SqlModelT where
  | mk (table : String) (sqliteDialect : Bool)
       (fields : List String) (rels : List (String × SqlModelT))

def SqlModelT.table : SqlModelT → String
  | .mk t _ _ _ => t

def SqlModelT.sqliteDialect : SqlModelT → Bool
  | .mk _ d _ _ => d

def SqlModelT.fields : SqlModelT → List String
  | .mk _ _ fs _ => fs

def SqlModelT.rels : SqlModelT → List (String × SqlModelT)
  | .mk _ _ _ rs => rs

/-- What _get_sql_nested_field returns: either a column of some table (with
the dialect flag of the model that owns it) or a relationship attribute
(when the final path segment is itself a relation). -/
inductive SqlFieldRef where
  | col (table fieldName : String) (sqliteDialect : Bool)
  | relAttr (relName : String)
  deriving DecidableEq, Repr

/-- One step of the segment walk of _get_sql_nested_field: getattr on a
missing name raises AttributeError; a relation segment descends into the
target model; a plain column mid-path re-raises AttributeError; a plain
column as the last segment is the result. -/
def sqlFieldWalk : SqlModelT → List String → Except PyErr SqlFieldRef
  | _, [] => .error .valueError
  | m, part :: rest =>
    match m.rels.find? (fun r => r.1 = part), rest with
    | some _, [] => .ok (.relAttr part)
    | some r, _ :: _ => sqlFieldWalk r.2 rest
    | none, [] =>
      if part ∈ m.fields then .ok (.col m.table part m.sqliteDialect)
      else .error .attributeError
    | none, _ :: _ => .error .attributeError

/-- nqlstore/query/parsers.py _get_sql_nested_field. -/
def getSqlNestedField (m : SqlModelT) (path : String) : Except PyErr SqlFieldRef :=
  sqlFieldWalk m (splitDots path)

/-- A redis model as the translator sees it: plain indexed fields plus
embedded models. -/
inductive RedisModelT where
  | mk (fields : List String) (embedded : List (String × RedisModelT))

def RedisModelT.fields : RedisModelT → List String
  | .mk fs _ => fs

def RedisModelT.embedded : RedisModelT → List (String × RedisModelT)
  | .mk _ es => es

/-- The segment walk of _get_redis_nested_field: every segment must be an
attribute of the current model (else getattr raises AttributeError);
embedded segments descend; the resolved field is identified by its full
dotted path. -/
def redisFieldWalk : RedisModelT → List String → List String → Except PyErr String
  | _, seen, [] => .ok (String.intercalate "." seen.reverse)
  | m, seen, part :: rest =>
    match m.embedded.find? (fun r => r.1 = part), rest with
    | some r, _ => redisFieldWalk r.2 (part :: seen) rest
    | none, [] =>
      if part ∈ m.fields then .ok (String.intercalate "." (part :: seen).reverse)
      else .error .attributeError
    | none, _ :: _ => .error .attributeError

/-- nqlstore/query/parsers.py _get_redis_nested_field. -/
def getRedisNestedField (m : RedisModelT) (path : String) : Except PyErr String :=
  redisFieldWalk m [] (splitDots path)

/-- The context a predicate is constructed in.  resolver is the model the
parent exposes for field resolution (only RootPredicate carries the model,
so it is none below the first FieldPredicate or NotPredicate); field is
the resolved field of the enclosing FieldPredicate, if any (OperatorPredicate
children read it as parent.__sql_field__ / parent.__redis_field__). -/
structure ParseCtx (ρ : Type) where
  resolver : Option (String → Except PyErr ρ)
  field : Option ρ

/-- The predicate tree built by QueryParser._parse, generic over the type ρ
of resolved field references (SqlFieldRef for the relational backend, the
dotted path string for the kv backend). -/
inductive Pred (ρ : Type) where
  | opP (op : CmpOp) (field : Option ρ) (value : DVal)
  | regexP (field : Option ρ) (pattern : DVal) (options : DVal)
  | fieldP (name : String) (field : Option ρ) (children : List (Pred ρ))
  | notP (field : Option ρ) (children : List (Pred ρ))
  | andP (children : List (List (Pred ρ)))
  | orP (children : List (List (Pred ρ)))
  | norP (children : List (List (Pred ρ)))
  | mongoP (selector : String) (value : DVal)

/-- FieldPredicate resolves the field only when the parent carries a model
(RootPredicate does; FieldPredicate and NotPredicate do not, their slots
have no __sql_model__ or __redis_model__ attribute). -/
def resolveField {ρ : Type} (ctx : ParseCtx ρ) (k : String) :
    Except PyErr (Option ρ) :=
  match ctx.resolver with
  | some r => (r k).map some
  | none => .ok none

/-- Lookup of the $options key on the raw selector dict, defaulting to the
empty string, as RegexPredicate.__init__ does with raw_query.get. -/
def dictGetD (kvs : List (String × DVal)) (key : String) (dflt : DVal) : DVal :=
  match kvs.find? (fun kv => kv.1 = key) with
  | some kv => kv.2
  | none => dflt

mutual

/-- QueryParser._parse: iterating selector.items() requires a dict; every
other value raises AttributeError. -/
def parseSel {ρ : Type} (ctx : ParseCtx ρ) : DVal → Except PyErr (List (Pred ρ))
  | .vdict kvs => parseEntries ctx kvs kvs
  | _ => .error .attributeError
termination_by v => (sizeOf v, 0)

/-- The left-to-right construction of one predicate per selector key. -/
def parseEntries {ρ : Type} (ctx : ParseCtx ρ) (raw : List (String × DVal)) :
    List (String × DVal) → Except PyErr (List (Pred ρ))
  | [] => .ok []
  | (k, v) :: rest => do
    let p ← parseEntry ctx raw k v
    let ps ← parseEntries ctx raw rest
    pure (p :: ps)
termination_by l => (sizeOf l, 3)

/-- Dispatch of one selector key through QueryParser._get_predicate_cls and
the constructor of the chosen predicate class. -/
def parseEntry {ρ : Type} (ctx : ParseCtx ρ) (raw : List (String × DVal))
    (k : String) (v : DVal) : Except PyErr (Pred ρ) :=
  match registryLookup k with
  | some (.cmpK c) => .ok (.opP c ctx.field v)
  | some .notK => do
    let children ← parseSel ⟨none, ctx.field⟩ v
    pure (.notP ctx.field children)
  | some .andK => do
    let ls ← parseLogicalPayload ctx v
    pure (.andP ls)
  | some .orK => do
    let ls ← parseLogicalPayload ctx v
    pure (.orP ls)
  | some .norK => do
    let ls ← parseLogicalPayload ctx v
    pure (.norP ls)
  | some .regexK => .ok (.regexP ctx.field v (dictGetD raw "$options" (.vstr "")))
  | some .mongoK => .ok (.mongoP k v)
  | none =>
    if startsDollar k then
      .error (.notImplementedError (String.append "selector not supported yet " k))
    else do
      let fieldRef ← resolveField ctx k
      let children ← parseSel ⟨none, fieldRef⟩ v
      pure (.fieldP k fieldRef children)
termination_by (sizeOf v, 2)

/-- MultiLogicalPredicate.__init__ iterates its payload and parses each
element with the parent of the logical node as parent: a list parses its
elements; iterating a dict visits its keys, and parsing a string key raises
AttributeError (an empty dict yields no elements); iterating a string
visits one-character strings which raise AttributeError likewise; other
values are not iterable and raise TypeError. -/
def parseLogicalPayload {ρ : Type} (ctx : ParseCtx ρ) :
    DVal → Except PyErr (List (List (Pred ρ)))
  | .vlist xs => parseSelList ctx xs
  | .vdict [] => .ok []
  | .vdict (_ :: _) => .error .attributeError
  | .vstr s => if s.data.isEmpty then .ok [] else .error .attributeError
  | _ => .error .typeError
termination_by v => (sizeOf v, 1)

/-- Element-wise parse of the payload list of a logical operator. -/
def parseSelList {ρ : Type} (ctx : ParseCtx ρ) :
    List DVal → Except PyErr (List (List (Pred ρ)))
  | [] => .ok []
  | x :: xs => do
    let p ← parseSel ctx x
    let ps ← parseSelList ctx xs
    pure (p :: ps)
termination_by l => (sizeOf l, 0)

end

/-! The fuel-bounded evaluator of the parser: the same five functions with a
structurally decreasing fuel argument, used to compute the parser on
concrete selectors by plain structural reduction (parseN_sound below proves
every returned value is the parse result).  Each arm mirrors the
corresponding arm of the parser above. -/

mutual

/-- Fuel-bounded parseSel. -/
def parseSelN {ρ : Type} : Nat → ParseCtx ρ → DVal →
    Option (Except PyErr (List (Pred ρ)))
  | 0, _, _ => none
  | n + 1, ctx, v =>
    match v with
    | .vdict kvs => parseEntriesN n ctx kvs kvs
    | _ => some (.error .attributeError)

/-- Fuel-bounded parseEntries. -/
def parseEntriesN {ρ : Type} : Nat → ParseCtx ρ → List (String × DVal) →
    List (String × DVal) → Option (Except PyErr (List (Pred ρ)))
  | 0, _, _, _ => none
  | n + 1, ctx, raw, l =>
    match l with
    | [] => some (.ok [])
    | (k, v) :: rest =>
      match parseEntryN n ctx raw k v with
      | none => none
      | some (.error e) => some (.error e)
      | some (.ok p) =>
        match parseEntriesN n ctx raw rest with
        | none => none
        | some (.error e) => some (.error e)
        | some (.ok ps) => some (.ok (p :: ps))

/-- Fuel-bounded parseEntry. -/
def parseEntryN {ρ : Type} : Nat → ParseCtx ρ → List (String × DVal) →
    String → DVal → Option (Except PyErr (Pred ρ))
  | 0, _, _, _, _ => none
  | n + 1, ctx, raw, k, v =>
    match registryLookup k with
    | some (.cmpK c) => some (.ok (.opP c ctx.field v))
    | some .notK =>
      match parseSelN n ⟨none, ctx.field⟩ v with
      | none => none
      | some (.error e) => some (.error e)
      | some (.ok children) => some (.ok (.notP ctx.field children))
    | some .andK =>
      match parseLogicalPayloadN n ctx v with
      | none => none
      | some (.error e) => some (.error e)
      | some (.ok ls) => some (.ok (.andP ls))
    | some .orK =>
      match parseLogicalPayloadN n ctx v with
      | none => none
      | some (.error e) => some (.error e)
      | some (.ok ls) => some (.ok (.orP ls))
    | some .norK =>
      match parseLogicalPayloadN n ctx v with
      | none => none
      | some (.error e) => some (.error e)
      | some (.ok ls) => some (.ok (.norP ls))
    | some .regexK =>
      some (.ok (.regexP ctx.field v (dictGetD raw "$options" (.vstr ""))))
    | some .mongoK => some (.ok (.mongoP k v))
    | none =>
      if startsDollar k then
        some (.error (.notImplementedError (String.append "selector not supported yet " k)))
      else
        match resolveField ctx k with
        | .error e => some (.error e)
        | .ok fieldRef =>
          match parseSelN n ⟨none, fieldRef⟩ v with
          | none => none
          | some (.error e) => some (.error e)
          | some (.ok children) => some (.ok (.fieldP k fieldRef children))

/-- Fuel-bounded parseLogicalPayload. -/
def parseLogicalPayloadN {ρ : Type} : Nat → ParseCtx ρ → DVal →
    Option (Except PyErr (List (List (Pred ρ))))
  | 0, _, _ => none
  | n + 1, ctx, v =>
    match v with
    | .vlist xs => parseSelListN n ctx xs
    | .vdict [] => some (.ok [])
    | .vdict (_ :: _) => some (.error .attributeError)
    | .vstr s => if s.data.isEmpty then some (.ok []) else some (.error .attributeError)
    | _ => some (.error .typeError)

/-- Fuel-bounded parseSelList. -/
def parseSelListN {ρ : Type} : Nat → ParseCtx ρ → List DVal →
    Option (Except PyErr (List (List (Pred ρ))))
  | 0, _, _ => none
  | n + 1, ctx, l =>
    match l with
    | [] => some (.ok [])
    | x :: xs =>
      match parseSelN n ctx x with
      | none => none
      | some (.error e) => some (.error e)
      | some (.ok p) =>
        match parseSelListN n ctx xs with
        | none => none
        | some (.error e) => some (.error e)
        | some (.ok ps) => some (.ok (p :: ps))

end

/-- A SQL column as it appears inside an emitted sqlalchemy expression. -/
structure SqlCol where
  table : String
  name : String
  deriving DecidableEq, Repr

/-- The sqlalchemy filter expressions the translator emits.  andE and orE
represent BooleanClauseList with two or more clauses (and_ and or_ of a
single clause return that clause itself, which sqlAnd and sqlOr below
reproduce); existsRel represents the correlated
EXISTS (SELECT 1 FROM target WHERE target.fk = parent.id) that sqlalchemy
builds when a collection relationship attribute is compared with None
(rel == None emits its negation NOT EXISTS); inSubquery represents
model.id.in_(select(model.id) joined to the named relations and filtered by
the where clauses), built by _to_subquery_based_filters. -/
inductive SqlExpr where
  | cmp (op : CmpOp) (col : SqlCol) (value : DVal)
  | existsRel (relName : String)
  | regexpMatch (col : SqlCol) (pattern : String) (flags : String)
  | andE (es : List SqlExpr)
  | orE (es : List SqlExpr)
  | notE (e : SqlExpr)
  | inSubquery (idCol : SqlCol) (joins : List String) (wheres : List SqlExpr)

/-- sqlalchemy and_: with one clause it returns the clause itself, otherwise
a boolean clause list. -/
def sqlAnd : List SqlExpr → SqlExpr
  | [e] => e
  | es => .andE es

/-- sqlalchemy or_: with one clause it returns the clause itself. -/
def sqlOr : List SqlExpr → SqlExpr
  | [e] => e
  | es => .orE es

/-- The str() Python applies when interpolating a value into the regex
pattern f-string. -/
def asPyStr : DVal → String
  | .vstr s => s
  | .vint n => toString n
  | .vbool true => "True"
  | .vbool false => "False"
  | .vnull => "None"
  | .vlist _ => "[...]"
  | .vdict _ => "{...}"

/-- Python truthiness of the $options value, used by the condition
"... and self.options" in RegexPredicate.to_sqlalchemy. -/
def pyTruthy : DVal → Bool
  | .vstr s => !s.isEmpty
  | .vint n => n != 0
  | .vbool b => b
  | .vnull => false
  | .vlist xs => !xs.isEmpty
  | .vdict kvs => !kvs.isEmpty

mutual

/-- The to_sqlalchemy emission of one predicate, returning the tuple of
filters the corresponding predicate class returns.  Accessing
parent.__sql_field__ when the parent resolved no field raises
AttributeError.  When the resolved field is a collection relationship
attribute, sqlalchemy's relationship comparator only supports comparison
with None: == None emits NOT EXISTS, != None emits EXISTS, == or != against
any other value raises InvalidRequestError, and the remaining comparison
operators raise NotImplementedError (the exact message is sqlalchemy's). -/
def toSqlPred : Pred SqlFieldRef → Except PyErr (List SqlExpr)
  | .opP c f _v =>
    match f with
    | none => .error .attributeError
    | some (.col t n _) => .ok [.cmp c ⟨t, n⟩ _v]
    | some (.relAttr r) =>
      match c, _v with
      | .eq, .vnull => .ok [.notE (.existsRel r)]
      | .ne, .vnull => .ok [.existsRel r]
      | .eq, _ => .error .invalidRequestError
      | .ne, _ => .error .invalidRequestError
      | _, _ => .error (.notImplementedError "operator not supported on a relationship")
  | .regexP f pat opts =>
    match f with
    | none => .error .attributeError
    | some (.col t n sq) =>
      let p := if sq && pyTruthy opts then
          String.append (String.append "(?" (asPyStr opts)) (String.append ")" (asPyStr pat))
        else asPyStr pat
      .ok [.regexpMatch ⟨t, n⟩ p (asPyStr opts)]
    | some (.relAttr _) => .error .attributeError
  | .fieldP _ _ children => do
    let es ← toSqlPredList children
    pure [sqlAnd es]
  | .notP _ children => do
    let es ← toSqlPredList children
    pure [.notE (sqlAnd es)]
  | .andP ls => do
    let es ← toSqlPredLL ls
    pure [sqlAnd es]
  | .orP ls => do
    let es ← toSqlPredLL ls
    pure [sqlOr es]
  | .norP ls => do
    let es ← toSqlPredLL ls
    pure [.notE (sqlOr es)]
  | .mongoP _ _ => .ok []

/-- Flattened emission of a list of predicates (the _flatten_list of the
per-child tuples). -/
def toSqlPredList : List (Pred SqlFieldRef) → Except PyErr (List SqlExpr)
  | [] => .ok []
  | p :: ps => do
    let es ← toSqlPred p
    let rest ← toSqlPredList ps
    pure (es ++ rest)

/-- Flattened emission of the nested child lists of a logical predicate. -/
def toSqlPredLL : List (List (Pred SqlFieldRef)) → Except PyErr (List SqlExpr)
  | [] => .ok []
  | l :: ls => do
    let es ← toSqlPredList l
    let rest ← toSqlPredLL ls
    pure (es ++ rest)

end

/-- The redis-om filter expressions the translator emits; andE and orE are
binary because _redis_and and _redis_or fold the list with the binary
operators of redis-om expressions. -/
inductive RedisExpr where
  | cmp (op : CmpOp) (field : String) (value : DVal)
  | andE (a b : RedisExpr)
  | orE (a b : RedisExpr)
  | notE (e : RedisExpr)

/-- nqlstore/query/parsers.py _redis_and: functools.reduce over the list;
reducing an empty list without an initial value raises TypeError. -/
def redisAnd : List RedisExpr → Except PyErr RedisExpr
  | [] => .error .typeError
  | e :: es => .ok (es.foldl RedisExpr.andE e)

/-- nqlstore/query/parsers.py _redis_or, likewise. -/
def redisOr : List RedisExpr → Except PyErr RedisExpr
  | [] => .error .typeError
  | e :: es => .ok (es.foldl RedisExpr.orE e)

mutual

/-- The to_redis emission of one predicate.  RegexPredicate.to_redis raises
NotImplementedError unconditionally. -/
def toRedisPred : Pred String → Except PyErr (List RedisExpr)
  | .opP c f _v =>
    match f with
    | none => .error .attributeError
    | some path => .ok [.cmp c path _v]
  | .regexP _ _ _ =>
    .error (.notImplementedError "redis text search is too inexpressive for regex.")
  | .fieldP _ _ children => do
    let es ← toRedisPredList children
    let e ← redisAnd es
    pure [e]
  | .notP _ children => do
    let es ← toRedisPredList children
    let e ← redisAnd es
    pure [.notE e]
  | .andP ls => do
    let es ← toRedisPredLL ls
    let e ← redisAnd es
    pure [e]
  | .orP ls => do
    let es ← toRedisPredLL ls
    let e ← redisOr es
    pure [e]
  | .norP ls => do
    let es ← toRedisPredLL ls
    let e ← redisAnd (es.map RedisExpr.notE)
    pure [e]
  | .mongoP _ _ => .ok []

/-- Flattened to_redis emission of a list of predicates. -/
def toRedisPredList : List (Pred String) → Except PyErr (List RedisExpr)
  | [] => .ok []
  | p :: ps => do
    let es ← toRedisPred p
    let rest ← toRedisPredList ps
    pure (es ++ rest)

/-- Flattened to_redis emission of the nested child lists of a logical
predicate. -/
def toRedisPredLL : List (List (Pred String)) → Except PyErr (List RedisExpr)
  | [] => .ok []
  | l :: ls => do
    let es ← toRedisPredList l
    let rest ← toRedisPredLL ls
    pure (es ++ rest)

end

/-- QueryParser.to_sql: build the root predicate against the SQL model and
emit its sqlalchemy filter tuple. -/
def toSqlFilters (m : SqlModelT) (query : DVal) : Except PyErr (List SqlExpr) := do
  let ps ← parseSel ⟨some (getSqlNestedField m), none⟩ query
  toSqlPredList ps

/-- QueryParser.to_redis: build the root predicate against the redis model
and emit its redis filter tuple. -/
def toRedisFilters (m : RedisModelT) (query : DVal) : Except PyErr (List RedisExpr) := do
  let ps ← parseSel ⟨some (getRedisNestedField m), none⟩ query
  toRedisPredList ps

/-- MongoStore passes the portable query to the driver untranslated: find,
update and delete merely append it to the native filter tuple
(nqlstore/_mongo.py lines building all_filters). -/
def mongoQueryFilters (filters : List DVal) (query : Option DVal) : List DVal :=
  match query with
  | none => filters
  | some q => filters ++ [q]

/-! ## Semantics of emitted filters

Records are association lists of attribute values.  The comparison
semantics below is the abstraction of what the SQL engine and the redis
index evaluate for the emitted leaf comparisons; the claims about logical
structure hold for any leaf semantics, and the two backends share this one
so that emissions can be compared semantically. -/

/-- Ordering of dynamic values: integers by value, strings
lexicographically; values of different kinds do not compare. -/
def dvalLt (a b : DVal) : Bool :=
  match a, b with
  | .vint x, .vint y => decide (x < y)
  | .vstr x, .vstr y => decide (x < y)
  | _, _ => false

/-- Whether a stored attribute value (none when the column is NULL or the
attribute is absent) matches one comparison operator against a literal. -/
def cmpMatches (op : CmpOp) (stored : Option DVal) (v : DVal) : Bool :=
  match stored with
  | none => false
  | some x =>
    match op with
    | .eq => x == v
    | .ne => x != v
    | .gt => dvalLt v x
    | .gte => dvalLt v x || x == v
    | .lt => dvalLt x v
    | .lte => dvalLt x v || x == v
    | .opIn =>
      match v with
      | .vlist l => l.any (fun y => x == y)
      | _ => false
    | .nin =>
      match v with
      | .vlist l => !l.any (fun y => x == y)
      | _ => false

/-- Attribute lookup on a record. -/
def attrLookup (attrs : List (String × DVal)) (k : String) : Option DVal :=
  match attrs.find? (fun kv => kv.1 = k) with
  | some kv => some kv.2
  | none => none

mutual

/-- Row-level truth of an emitted sqlalchemy expression, given an
environment resolving columns to stored values.  Three constructors are not
given row-level semantics here: existsRel needs the child table, the
id-in-subquery filter needs the whole database (it is evaluated at the
store level by evalStoreFilter), and REGEXP needs a regex engine the store
never registers with sqlite.  Every store-level theorem scopes its filters
with evaluableFilter below, which excludes all three, so no result depends
on the placeholder value returned for them. -/
def evalSql (env : SqlCol → Option DVal) : SqlExpr → Bool
  | .cmp op col v => cmpMatches op (env col) v
  | .existsRel _ => false
  | .regexpMatch _ _ _ => false
  | .andE es => evalSqlAll env es
  | .orE es => evalSqlAny env es
  | .notE e => !evalSql env e
  | .inSubquery _ _ _ => false

/-- Conjunction over a clause list. -/
def evalSqlAll (env : SqlCol → Option DVal) : List SqlExpr → Bool
  | [] => true
  | e :: es => evalSql env e && evalSqlAll env es

/-- Disjunction over a clause list. -/
def evalSqlAny (env : SqlCol → Option DVal) : List SqlExpr → Bool
  | [] => false
  | e :: es => evalSql env e || evalSqlAny env es

end

/-- Truth of an emitted redis expression on a record. -/
def evalRedis (attrs : List (String × DVal)) : RedisExpr → Bool
  | .cmp op f v => cmpMatches op (attrLookup attrs f) v
  | .andE a b => evalRedis attrs a && evalRedis attrs b
  | .orE a b => evalRedis attrs a || evalRedis attrs b
  | .notE e => !evalRedis attrs e

/-! ## The relational store over the test schema

The repository exercises the relational driver on the Library and Book
models of src/tests/conftest.py: table sqllibrary with an integer primary
key and the one-to-many relation books to table sqlbook, whose foreign key
column is library_id.  The store functions below transcribe SQLStore.find,
SQLStore.delete and SQLStore.update of nqlstore/_sql.py over this schema. -/

def libTable : String := "sqllibrary"
def bookTable : String := "sqlbook"

/-- A row of the sqllibrary table. -/
structure LibRec where
  id : Int
  attrs : List (String × DVal)

/-- A row of the sqlbook table; library_id is the foreign key to the
parent library (none when NULL). -/
structure BookRec where
  id : Int
  library_id : Option Int
  attrs : List (String × DVal)

/-- The relational database state. -/
structure SqlDb where
  libs : List LibRec
  books : List BookRec

/-- Column environment of a bare library row. -/
def libEnv (p : LibRec) (col : SqlCol) : Option DVal :=
  if col.table = libTable then
    if col.name = "id" then some (.vint p.id) else attrLookup p.attrs col.name
  else none

/-- Column environment of a joined (library, book) row. -/
def joinEnv (p : LibRec) (c : BookRec) (col : SqlCol) : Option DVal :=
  if col.table = bookTable then
    if col.name = "id" then some (.vint c.id)
    else if col.name = "library_id" then c.library_id.map DVal.vint
    else attrLookup c.attrs col.name
  else libEnv p col

/-- The Column objects among the immediate children of a filter expression,
as inspected by _get_filtered_tables and _get_relational_filters: a binary
comparison, an in_ or a regexp_match exposes its column; the children of a
boolean clause list or of a not_ are clauses, not columns; the children of
id.in_(subquery) expose the id column. -/
def directCols : SqlExpr → List SqlCol
  | .cmp _ col _ => [col]
  | .regexpMatch col _ _ => [col]
  | .inSubquery idCol _ _ => [idCol]
  | _ => []

/-- _get_filtered_tables over a filter tuple. -/
def filteredTables (fs : List SqlExpr) : List String :=
  fs.flatMap (fun f => (directCols f).map (fun c => c.table))

/-- Whether a filter references (through a direct column child) the target
table of the books relation, the only relation of the Library model. -/
def isRelationalFilter (f : SqlExpr) : Bool :=
  (directCols f).any (fun c => c.table = bookTable)

/-- nqlstore/_sql.py _get_non_relational_filters. -/
def getNonRelationalFilters (fs : List SqlExpr) : List SqlExpr :=
  fs.filter (fun f => !isRelationalFilter f)

/-- nqlstore/_sql.py _to_subquery_based_filters: on an empty input no
filter is produced; otherwise the relations whose target appears among the
filtered tables are inner-joined inside a select of the model id and the
single filter model.id.in_(subquery.where(rel_filters)) is returned. -/
def toSubqueryBasedFilters (relFilters : List SqlExpr) : List SqlExpr :=
  match relFilters with
  | [] => []
  | _ =>
    let joins := if (filteredTables relFilters).contains bookTable then ["books"] else []
    [.inSubquery ⟨libTable, "id"⟩ joins relFilters]

/-- nqlstore/_sql.py _get_relational_filters. -/
def getRelationalFilters (fs : List SqlExpr) : List SqlExpr :=
  toSubqueryBasedFilters (fs.filter isRelationalFilter)

/-- The parent ids produced by the rewritten subquery: select lib.id with an
inner join to books when the books relation was filtered, keeping the rows
on which every rewritten filter is true. -/
def subqueryIds (db : SqlDb) (joins : List String) (wheres : List SqlExpr) : List Int :=
  if joins.contains "books" then
    db.libs.flatMap (fun q =>
      (db.books.filter (fun c => c.library_id == some q.id)).filterMap (fun c =>
        if wheres.all (fun w => evalSql (joinEnv q c) w) then some q.id else none))
  else
    db.libs.filterMap (fun q =>
      if wheres.all (fun w => evalSql (libEnv q) w) then some q.id else none)

/-- Truth of one where-clause filter for a candidate row, with the
id-in-subquery filter evaluated against the database. -/
def evalStoreFilter (db : SqlDb) (p : LibRec) (c : Option BookRec) : SqlExpr → Bool
  | .inSubquery _ joins wheres => (subqueryIds db joins wheres).contains p.id
  | f =>
    match c with
    | some cr => evalSql (joinEnv p cr) f
    | none => evalSql (libEnv p) f

/-- Whether _find joins: some filter references the books table through a
direct column child (_get_filtered_relations is non-empty). -/
def findJoinNeeded (fs : List SqlExpr) : Bool :=
  fs.any isRelationalFilter

/-- The library rows returned by _find: with a join, one row per matching
(library, book) pair; without, the libraries on which all filters hold. -/
def sqlFindRows (db : SqlDb) (fs : List SqlExpr) : List LibRec :=
  if findJoinNeeded fs then
    db.libs.flatMap (fun p =>
      (db.books.filter (fun c => c.library_id == some p.id)).filterMap (fun c =>
        if fs.all (fun f => evalStoreFilter db p (some c) f) then some p else none))
  else
    db.libs.filter (fun p => fs.all (fun f => evalStoreFilter db p none f))

/-- A library record with its books relation eagerly loaded
(subqueryload attaches all children of the returned parents). -/
structure LibWithBooks where
  lib : LibRec
  books : List BookRec

/-- The books of one library in the database. -/
def booksOf (db : SqlDb) (p : LibRec) : List BookRec :=
  db.books.filter (fun b => b.library_id == some p.id)

/-- SQLStore.find over the schema (skip 0, no limit, no sort, as the
internal uses by delete and update call it). -/
def sqlFind (db : SqlDb) (fs : List SqlExpr) : List LibWithBooks :=
  (sqlFindRows db fs).map (fun p => ⟨p, booksOf db p⟩)

/-- SQLStore.delete: translate the portable query if given and append it to
the native filters; snapshot the deletees with find; split the filters,
rewriting the relational ones to subquery form; issue the delete with the
split filters and return the snapshot. -/
def sqlDelete (m : SqlModelT) (db : SqlDb) (filters : List SqlExpr)
    (query : Option DVal) : Except PyErr (SqlDb × List LibWithBooks) := do
  let fs ← match query with
    | none => pure filters
    | some q => do
      let qfs ← toSqlFilters m q
      pure (filters ++ qfs)
  let deleted := sqlFind db fs
  let whereFs := getNonRelationalFilters fs ++ getRelationalFilters fs
  let post : SqlDb :=
    ⟨db.libs.filter (fun p => !(whereFs.all (fun f => evalStoreFilter db p none f))),
      db.books⟩
  pure (post, deleted)

/-! ## SQLStore.update over the one-to-many schema -/

/-- A row of the post table. -/
structure PostRec where
  id : Int
  attrs : List (String × DVal)

/-- A row of the tag table. -/
structure TagRec where
  id : Int
  attrs : List (String × DVal)

/-- A row of the link (through) table. -/
structure TagLinkRec where
  id : Int
  post_id : Int
  tag_id : Int

/-- The relational database state of the many-to-many schema. -/
structure M2mDb where
  posts : List PostRec
  tags : List TagRec
  links : List TagLinkRec

def maxPostId (ps : List PostRec) : Int :=
  ps.foldl (fun m p => max m p.id) 0

def maxTagId (ts : List TagRec) : Int :=
  ts.foldl (fun m t => max m t.id) 0

/-- The tags relation of a post as the refetch at the end of insert loads
it: through the link rows of the through table. -/
def tagsOf (db : M2mDb) (p : PostRec) : List TagRec :=
  (db.links.filter (fun l => l.post_id == p.id)).filterMap
    (fun l => db.tags.find? (fun t => t.id == l.tag_id))

/-- _embed_related_value on the many-to-many tags relation for one item:
the children are validated standalone (no foreign key is written on them);
an absent or None payload contributes nothing. -/
def embeddedTagItems (item : List (String × DVal)) :
    Except PyErr (List (List (String × DVal))) :=
  match attrLookup item "tags" with
  | none => .ok []
  | some (.vlist xs) =>
    xs.mapM (fun x =>
      match x with
      | .vdict kvs => .ok kvs
      | _ => .error .attributeError)
  | some .vnull => .ok []
  | some (.vstr s) => if s.data.isEmpty then .ok [] else .error .attributeError
  | some (.vdict kvs) => if kvs.isEmpty then .ok [] else .error .attributeError
  | some _ => .error .typeError

/-- SQLStore.insert over the Post, Tag and TagLink schema: validate the
items and insert the posts (the tags key is a relationship, not a column);
collect the embedded tag children of all items and bulk-insert them into
the tag table; add no link rows; refetch the inserted posts by id with the
tags relation eagerly loaded through the link table. -/
def sqlInsertM2m (db : M2mDb) (items : List (List (String × DVal))) :
    Except PyErr (M2mDb × List (PostRec × List TagRec)) := do
  let startP := maxPostId db.posts + 1
  let newPosts := items.enum.map (fun pair =>
    PostRec.mk (startP + pair.1)
      (pair.2.filter (fun kv => kv.1 ≠ "tags" ∧ kv.1 ≠ "id")))
  let tagItems ← items.mapM embeddedTagItems
  let allTagItems := tagItems.flatten
  let startT := maxTagId db.tags + 1
  let newTags := allTagItems.enum.map (fun pair =>
    TagRec.mk (startT + pair.1) (pair.2.filter (fun kv => kv.1 ≠ "id")))
  let db' : M2mDb := ⟨db.posts ++ newPosts, db.tags ++ newTags, db.links⟩
  let returned := (db'.posts.filter
    (fun p => (newPosts.map (fun q => q.id)).contains p.id)).map
    (fun p => (p, tagsOf db' p))
  pure (db', returned)

/-! ## The document store (nqlstore/_mongo.py) -/

/-- A document of a collection. -/
structure MDoc where
  id : Int
  attrs : List (String × DVal)

/-- MongoStore.find: the driver returns the documents matching the
conjunction of the filter documents (driver matching is abstracted as
decidable predicates on documents, since the store hands the filters to the
driver untranslated). -/
def mongoFind (db : List MDoc) (fs : List (MDoc → Bool)) : List MDoc :=
  db.filter (fun d => fs.all (fun f => f d))

/-- MongoStore.delete: materialize the cursor matching the merged filters,
then delete on the same cursor, and return the materialized snapshot. -/
def mongoDelete (db : List MDoc) (fs : List (MDoc → Bool)) :
    List MDoc × List MDoc :=
  let deleted := mongoFind db fs
  let post := db.filter (fun d => !(fs.all (fun f => f d)))
  (post, deleted)

/-- re.match of the compiled update-operator pattern (a dollar sign followed
by zero or more word characters, anchored at the start): it succeeds exactly
when the key begins with a dollar sign. -/
def updateOpMatch (k : String) : Bool :=
  startsDollar k

/-- The scan of _to_mongo_updates: return on the first key the pattern
matches. -/
def hasUpdateOpKey : List (String × DVal) → Bool
  | [] => false
  | (k, _) :: rest => if updateOpMatch k then true else hasUpdateOpKey rest

/-- nqlstore/_mongo.py _to_mongo_updates: if any top-level key matches the
update-operator pattern the dict is returned unchanged, otherwise it is
wrapped in a single $set. -/
def toMongoUpdates (updates : List (String × DVal)) : List (String × DVal) :=
  if hasUpdateOpKey updates then updates else [("$set", .vdict updates)]

/-! ## The kv store (nqlstore/_redis.py) -/

/-- A record stored in redis, identified by its primary key. -/
structure RRec where
  pk : String
  attrs : List (String × DVal)

/-- RedisStore.find restricted to what delete uses: the records matching
the conjunction of the filter expressions. -/
def redisFind (db : List RRec) (fs : List RedisExpr) : List RRec :=
  db.filter (fun r => fs.all (fun f => evalRedis r.attrs f))

/-- RedisStore.delete: translate the portable query if given, append it to
the native filters, materialize the matching records, then delete_many the
matched records by primary key and return the matched list. -/
def redisDelete (m : RedisModelT) (db : List RRec) (filters : List RedisExpr)
    (query : Option DVal) : Except PyErr (List RRec × List RRec) := do
  let nql ← match query with
    | none => pure []
    | some q => toRedisFilters m q
  let fs := filters ++ nql
  let matched := redisFind db fs
  let pks := matched.map (fun r => r.pk)
  let post := db.filter (fun r => !pks.contains r.pk)
  pure (post, matched)

/-! ## Statement-side helpers -/

/-- Whether an Except value succeeded. -/
def exOk {α : Type} : Except PyErr α → Bool
  | .ok _ => true
  | .error _ => false

/-- The error kinds the specification classifies as TranslationError: an
operator unsupported by the target backend (NotImplementedError), an
unknown field or a payload shape violation (AttributeError, ValueError).
The TypeError coming out of reducing an empty filter list is a plain crash,
not a classified translation error, and sqlalchemy's InvalidRequestError is
a backend error that propagates untouched. -/
def isTranslationErr : PyErr → Bool
  | .notImplementedError _ => true
  | .attributeError => true
  | .valueError => true
  | .typeError => false
  | .invalidRequestError => false

/-- Scalar payloads in the sense of the specification: not an operator map
and not a list. -/
def scalarVal : DVal → Bool
  | .vint _ => true
  | .vstr _ => true
  | .vbool _ => true
  | .vnull => true
  | .vlist _ => false
  | .vdict _ => false

mutual

/-- Every column appearing anywhere inside a filter expression; the
correlated EXISTS of a relationship-null comparison references the child
foreign key and the parent id. -/
def deepCols : SqlExpr → List SqlCol
  | .cmp _ col _ => [col]
  | .existsRel _ => [⟨bookTable, "library_id"⟩, ⟨libTable, "id"⟩]
  | .regexpMatch col _ _ => [col]
  | .andE es => deepColsList es
  | .orE es => deepColsList es
  | .notE e => deepCols e
  | .inSubquery idCol _ ws => idCol :: deepColsList ws

/-- Columns of a clause list. -/
def deepColsList : List SqlExpr → List SqlCol
  | [] => []
  | e :: es => deepCols e ++ deepColsList es

end

/-- A filter that touches only columns of the library table, at any depth. -/
def parentOnlyFilter (f : SqlExpr) : Bool :=
  (deepCols f).all (fun c => c.table = libTable)

/-- A bare leaf comparison on a column of the book table, the shape the
translator emits for a dotted path into the books relation (the single-
clause and_ wrapper of FieldPredicate collapses to the comparison itself). -/
def childLeafFilter (f : SqlExpr) : Bool :=
  match f with
  | .cmp _ col _ => col.table = bookTable
  | .regexpMatch col _ _ => col.table = bookTable
  | _ => false

/-- The filters the relational-store claims quantify over: either entirely
about the library table, or a bare leaf comparison on the book table.  This
is the shape of every filter the translator emits for the test schema and
of the native filters the repository tests pass. -/
def filterOk (f : SqlExpr) : Bool :=
  parentOnlyFilter f || childLeafFilter f

/-- The filters callers pass to the store are column comparisons or boolean
combinations of them; the id-in-subquery filter is only built internally by
the delete/update rewrite, never passed in by a caller. -/
def notSubqueryFilter : SqlExpr → Bool
  | .inSubquery _ _ _ => false
  | _ => true

mutual

/-- The filters whose row-level truth the model evaluates: boolean
combinations of plain column comparisons.  REGEXP (an engine function),
the correlated EXISTS of a relationship-null comparison and the internal
id-in-subquery filter are outside this fragment; the relational-store
theorems restrict their filters to it. -/
def evaluableFilter : SqlExpr → Bool
  | .cmp _ _ _ => true
  | .andE es => evaluableList es
  | .orE es => evaluableList es
  | .notE e => evaluableFilter e
  | _ => false

/-- Evaluability of every clause in a list. -/
def evaluableList : List SqlExpr → Bool
  | [] => true
  | e :: es => evaluableFilter e && evaluableList es

end

mutual

/-- Containment of a key that starts with a dollar sign and is not in the
parser registry, at the positions the parser examines: the keys of the
selector dict, of a field payload, of a $not payload and of the elements of
a logical operator list (the raw payloads of document-only operators are
never parsed and the payloads of comparison operators are literals). -/
def hasUnknownSel : DVal → Bool
  | .vdict kvs => hasUnknownEntries kvs
  | _ => false
termination_by v => (sizeOf v, 0)

/-- Scan of the entries of one selector dict for unknown operator keys. -/
def hasUnknownEntries : List (String × DVal) → Bool
  | [] => false
  | (k, v) :: rest => hasUnknownEntry k v || hasUnknownEntries rest
termination_by l => (sizeOf l, 3)

/-- Whether one selector entry is, or contains below it, an unknown
dollar-prefixed key. -/
def hasUnknownEntry (k : String) (v : DVal) : Bool :=
  match registryLookup k with
  | some .notK => hasUnknownSel v
  | some .andK => hasUnknownPayload v
  | some .orK => hasUnknownPayload v
  | some .norK => hasUnknownPayload v
  | some _ => false
  | none => if startsDollar k then true else hasUnknownSel v
termination_by (sizeOf v, 2)

/-- Unknown-key containment inside a logical operator payload. -/
def hasUnknownPayload : DVal → Bool
  | .vlist xs => hasUnknownSelList xs
  | _ => false
termination_by v => (sizeOf v, 1)

/-- Unknown-key containment in a list of sub-selectors. -/
def hasUnknownSelList : List DVal → Bool
  | [] => false
  | x :: xs => hasUnknownSel x || hasUnknownSelList xs
termination_by l => (sizeOf l, 0)

end

mutual

/-- Containment of a $regex operator at the positions the parser examines
(as above, the raw payloads of document-only operators are never parsed,
so a $regex key buried in such a payload is data, not an operator). -/
def hasRegexSel : DVal → Bool
  | .vdict kvs => hasRegexEntries kvs
  | _ => false
termination_by v => (sizeOf v, 0)

/-- Scan of the entries of one selector dict for a $regex operator. -/
def hasRegexEntries : List (String × DVal) → Bool
  | [] => false
  | (k, v) :: rest => hasRegexEntry k v || hasRegexEntries rest
termination_by l => (sizeOf l, 3)

/-- Whether one selector entry is, or contains below it, a $regex
operator. -/
def hasRegexEntry (k : String) (v : DVal) : Bool :=
  match registryLookup k with
  | some .regexK => true
  | some .notK => hasRegexSel v
  | some .andK => hasRegexPayload v
  | some .orK => hasRegexPayload v
  | some .norK => hasRegexPayload v
  | some _ => false
  | none => if startsDollar k then false else hasRegexSel v
termination_by (sizeOf v, 2)

/-- Regex containment inside a logical operator payload. -/
def hasRegexPayload : DVal → Bool
  | .vlist xs => hasRegexSelList xs
  | _ => false
termination_by v => (sizeOf v, 1)

/-- Regex containment in a list of sub-selectors. -/
def hasRegexSelList : List DVal → Bool
  | [] => false
  | x :: xs => hasRegexSel x || hasRegexSelList xs
termination_by l => (sizeOf l, 0)

end

/-! ## Concrete fixtures used by the closed theorems and witnesses -/

/-- The SqlLibrary model of src/tests/conftest.py as the translator sees it
on the sqlite test engine. -/
def libModelSql : SqlModelT :=
  .mk libTable true ["id", "name", "address"]
    [("books", .mk bookTable true ["id", "title", "library_id"] [])]

/-- The RedisLibrary model of src/tests/conftest.py. -/
def libModelRedis : RedisModelT :=
  .mk ["id", "name", "address"] [("books", .mk ["id", "title"] [])]

/-- A two-column model for the $nor semantics check. -/
def norModelSql : SqlModelT := .mk "t" false ["a", "b"] []

/-- The same two-column model on the kv backend. -/
def norModelRedis : RedisModelT := .mk ["a", "b"] []

/-- The multi-key sub-selector (a equals 1 and b equals 2). -/
def norSubSelector : DVal :=
  .vdict [("a", .vdict [("$eq", .vint 1)]), ("b", .vdict [("$eq", .vint 2)])]

/-- The $nor selector with that single sub-selector. -/
def norSelector : DVal := .vdict [("$nor", .vlist [norSubSelector])]

/-- The record (a = 1, b = 3): it fails the sub-selector, so it lies in the
complement of the union of the sub-selector match sets. -/
def norRecord : List (String × DVal) := [("a", .vint 1), ("b", .vint 3)]

/-- Column environment of a single flat table. -/
def flatEnv (table : String) (attrs : List (String × DVal)) (col : SqlCol) :
    Option DVal :=
  if col.table = table then attrLookup attrs col.name else none

/-! ## Helper lemmas -/

theorem registryLookup_eq_none (k : String) (h : startsDollar k = false) :
    registryLookup k = none := by
  have ne : ∀ s : String, startsDollar s = true → ¬(k = s) := by
    intro s hs hk
    rw [hk] at h
    rw [h] at hs
    exact Bool.noConfusion hs
  unfold registryLookup
  rw [if_neg (ne "$eq" (by decide)),
    if_neg (ne "$gt" (by decide)),
    if_neg (ne "$gte" (by decide)),
    if_neg (ne "$in" (by decide)),
    if_neg (ne "$lt" (by decide)),
    if_neg (ne "$lte" (by decide)),
    if_neg (ne "$ne" (by decide)),
    if_neg (ne "$nin" (by decide)),
    if_neg (ne "$not" (by decide)),
    if_neg (ne "$and" (by decide)),
    if_neg (ne "$nor" (by decide)),
    if_neg (ne "$or" (by decide)),
    if_neg (ne "$regex" (by decide)),
    if_neg (ne "$exists" (by decide)),
    if_neg (ne "$type" (by decide)),
    if_neg (ne "$expr" (by decide)),
    if_neg (ne "$jsonSchema" (by decide)),
    if_neg (ne "$mod" (by decide)),
    if_neg (ne "$text" (by decide)),
    if_neg (ne "$where" (by decide)),
    if_neg (ne "$geoIntersects" (by decide)),
    if_neg (ne "$geoWithin" (by decide)),
    if_neg (ne "$near" (by decide)),
    if_neg (ne "$nearSphere" (by decide)),
    if_neg (ne "$all" (by decide)),
    if_neg (ne "$elemMatch" (by decide)),
    if_neg (ne "$size" (by decide)),
    if_neg (ne "$bitsAllClear" (by decide)),
    if_neg (ne "$bitsAllSet" (by decide)),
    if_neg (ne "$bitsAnyClear" (by decide)),
    if_neg (ne "$bitsAnySet" (by decide)),
    if_neg (ne "$" (by decide)),
    if_neg (ne "$meta" (by decide)),
    if_neg (ne "$slice" (by decide)),
    if_neg (ne "$rand" (by decide)),
    if_neg (ne "$natural" (by decide)),
    if_neg (ne "$options" (by decide))]

theorem sqlFieldWalk_error (parts : List String) :
    ∀ (m : SqlModelT) (e : PyErr), parts ≠ [] →
      sqlFieldWalk m parts = .error e → e = .attributeError := by
  induction parts with
  | nil => intro m e h _; exact absurd rfl h
  | cons part rest ih =>
    intro m e _ hw
    rw [sqlFieldWalk.eq_def] at hw
    rcases hfind : List.find? (fun r => r.1 = part) m.rels with _ | r
    · cases rest with
      | nil =>
        by_cases hmem : part ∈ m.fields
        · simp only [hfind, if_pos hmem] at hw
          exact Except.noConfusion hw
        · simp only [hfind, if_neg hmem, Except.error.injEq] at hw
          exact hw.symm
      | cons r1 rest1 =>
        simp only [hfind, Except.error.injEq] at hw
        exact hw.symm
    · cases rest with
      | nil =>
        simp only [hfind] at hw
        exact Except.noConfusion hw
      | cons r1 rest1 =>
        simp only [hfind] at hw
        exact ih _ e (List.cons_ne_nil _ _) hw

theorem splitDotsGo_ne_nil (cs : List Char) : ∀ acc, splitDotsGo cs acc ≠ [] := by
  induction cs with
  | nil => intro acc; simp [splitDotsGo]
  | cons c rest ih =>
    intro acc
    rw [splitDotsGo]
    by_cases h : c = '.'
    · rw [if_pos h]; simp
    · rw [if_neg h]; exact ih _

theorem getSqlNestedField_error (m : SqlModelT) (path : String) (e : PyErr)
    (h : getSqlNestedField m path = .error e) : e = .attributeError := by
  exact sqlFieldWalk_error (splitDots path) m e (splitDotsGo_ne_nil _ _) h

theorem redisFieldWalk_error (parts : List String) :
    ∀ (m : RedisModelT) (seen : List String) (e : PyErr),
      redisFieldWalk m seen parts = .error e → e = .attributeError := by
  induction parts with
  | nil =>
    intro m seen e h
    rw [redisFieldWalk.eq_def] at h
    exact Except.noConfusion h
  | cons part rest ih =>
    intro m seen e hw
    rw [redisFieldWalk.eq_def] at hw
    rcases hfind : List.find? (fun r => r.1 = part) m.embedded with _ | r
    · cases rest with
      | nil =>
        by_cases hmem : part ∈ m.fields
        · simp only [hfind, if_pos hmem] at hw
          exact Except.noConfusion hw
        · simp only [hfind, if_neg hmem, Except.error.injEq] at hw
          exact hw.symm
      | cons r1 rest1 =>
        simp only [hfind, Except.error.injEq] at hw
        exact hw.symm
    · simp only [hfind] at hw
      exact ih _ _ e hw

theorem getRedisNestedField_error (m : RedisModelT) (path : String) (e : PyErr)
    (h : getRedisNestedField m path = .error e) : e = .attributeError :=
  redisFieldWalk_error (splitDots path) m [] e h

/-- Soundness of the fuel-bounded evaluator: whenever it returns a value,
that value is the parse result.  By induction on the fuel. -/
theorem parseN_sound {ρ : Type} : ∀ fuel : Nat,
    (∀ (ctx : ParseCtx ρ) (v : DVal) r, parseSelN fuel ctx v = some r →
      parseSel ctx v = r) ∧
    (∀ (ctx : ParseCtx ρ) (raw l : List (String × DVal)) r,
      parseEntriesN fuel ctx raw l = some r → parseEntries ctx raw l = r) ∧
    (∀ (ctx : ParseCtx ρ) (raw : List (String × DVal)) (k : String) (v : DVal) r,
      parseEntryN fuel ctx raw k v = some r → parseEntry ctx raw k v = r) ∧
    (∀ (ctx : ParseCtx ρ) (v : DVal) r, parseLogicalPayloadN fuel ctx v = some r →
      parseLogicalPayload ctx v = r) ∧
    (∀ (ctx : ParseCtx ρ) (l : List DVal) r, parseSelListN fuel ctx l = some r →
      parseSelList ctx l = r) := by
  intro fuel
  induction fuel with
  | zero =>
    refine ⟨?_, ?_, ?_, ?_, ?_⟩
    · intro ctx v r h
      rw [parseSelN] at h
      exact Option.noConfusion h
    · intro ctx raw l r h
      rw [parseEntriesN] at h
      exact Option.noConfusion h
    · intro ctx raw k v r h
      rw [parseEntryN] at h
      exact Option.noConfusion h
    · intro ctx v r h
      rw [parseLogicalPayloadN] at h
      exact Option.noConfusion h
    · intro ctx l r h
      rw [parseSelListN] at h
      exact Option.noConfusion h
  | succ n ih =>
    obtain ⟨ih1, ih2, ih3, ih4, ih5⟩ := ih
    refine ⟨?_, ?_, ?_, ?_, ?_⟩
    · intro ctx v r h
      cases v <;>
        first
        | (rename_i kvs
           simp only [parseSelN] at h
           simp only [parseSel]
           exact ih2 ctx kvs kvs r h)
        | (simp only [parseSelN, Option.some.injEq] at h
           subst h
           simp [parseSel])
    · intro ctx raw l r h
      cases l with
      | nil =>
        simp only [parseEntriesN, Option.some.injEq] at h
        subst h
        simp [parseEntries]
      | cons kv rest =>
        obtain ⟨k, v⟩ := kv
        rcases hp : parseEntryN n ctx raw k v with _ | ep
        · simp only [parseEntriesN, hp] at h
          exact Option.noConfusion h
        · rcases ep with e | p
          · simp only [parseEntriesN, hp, Option.some.injEq] at h
            subst h
            simp only [parseEntries, ih3 ctx raw k v _ hp, Bind.bind, Except.bind]
          · rcases hr : parseEntriesN n ctx raw rest with _ | er
            · simp only [parseEntriesN, hp, hr] at h
              exact Option.noConfusion h
            · rcases er with e | ps
              · simp only [parseEntriesN, hp, hr, Option.some.injEq] at h
                subst h
                simp only [parseEntries, ih3 ctx raw k v _ hp, ih2 ctx raw rest _ hr,
                  Bind.bind, Except.bind]
              · simp only [parseEntriesN, hp, hr, Option.some.injEq] at h
                subst h
                simp only [parseEntries, ih3 ctx raw k v _ hp, ih2 ctx raw rest _ hr,
                  Bind.bind, Except.bind, pure, Except.pure]
    · intro ctx raw k v r h
      rcases hreg : registryLookup k with _ | kind
      · rcases hd : startsDollar k with _ | _
        · rcases hres : resolveField ctx k with e | fr
          · simp only [parseEntryN, hreg, hd, Bool.false_eq_true, if_false, hres,
              Option.some.injEq] at h
            subst h
            simp only [parseEntry, hreg, hd, Bool.false_eq_true, if_false, hres,
              Bind.bind, Except.bind]
          · rcases hc : parseSelN n (⟨none, fr⟩ : ParseCtx ρ) v with _ | ec
            · simp only [parseEntryN, hreg, hd, Bool.false_eq_true, if_false, hres,
                hc] at h
              exact Option.noConfusion h
            · rcases ec with e | children
              · simp only [parseEntryN, hreg, hd, Bool.false_eq_true, if_false, hres,
                  hc, Option.some.injEq] at h
                subst h
                simp only [parseEntry, hreg, hd, Bool.false_eq_true, if_false, hres,
                  ih1 _ v _ hc, Bind.bind, Except.bind]
              · simp only [parseEntryN, hreg, hd, Bool.false_eq_true, if_false, hres,
                  hc, Option.some.injEq] at h
                subst h
                simp only [parseEntry, hreg, hd, Bool.false_eq_true, if_false, hres,
                  ih1 _ v _ hc, Bind.bind, Except.bind, pure, Except.pure]
        · simp only [parseEntryN, hreg, hd, eq_self_iff_true, if_true,
            Option.some.injEq] at h
          subst h
          simp only [parseEntry, hreg, hd, eq_self_iff_true, if_true]
      · cases kind with
        | cmpK c =>
          simp only [parseEntryN, hreg, Option.some.injEq] at h
          subst h
          simp only [parseEntry, hreg]
        | notK =>
          rcases hc : parseSelN n (⟨none, ctx.field⟩ : ParseCtx ρ) v with _ | ec
          · simp only [parseEntryN, hreg, hc] at h
            exact Option.noConfusion h
          · rcases ec with e | children
            · simp only [parseEntryN, hreg, hc, Option.some.injEq] at h
              subst h
              simp only [parseEntry, hreg, ih1 _ v _ hc, Bind.bind, Except.bind]
            · simp only [parseEntryN, hreg, hc, Option.some.injEq] at h
              subst h
              simp only [parseEntry, hreg, ih1 _ v _ hc, Bind.bind, Except.bind,
                pure, Except.pure]
        | andK =>
          rcases hc : parseLogicalPayloadN n ctx v with _ | ec
          · simp only [parseEntryN, hreg, hc] at h
            exact Option.noConfusion h
          · rcases ec with e | ls
            · simp only [parseEntryN, hreg, hc, Option.some.injEq] at h
              subst h
              simp only [parseEntry, hreg, ih4 ctx v _ hc, Bind.bind, Except.bind]
            · simp only [parseEntryN, hreg, hc, Option.some.injEq] at h
              subst h
              simp only [parseEntry, hreg, ih4 ctx v _ hc, Bind.bind, Except.bind,
                pure, Except.pure]
        | orK =>
          rcases hc : parseLogicalPayloadN n ctx v with _ | ec
          · simp only [parseEntryN, hreg, hc] at h
            exact Option.noConfusion h
          · rcases ec with e | ls
            · simp only [parseEntryN, hreg, hc, Option.some.injEq] at h
              subst h
              simp only [parseEntry, hreg, ih4 ctx v _ hc, Bind.bind, Except.bind]
            · simp only [parseEntryN, hreg, hc, Option.some.injEq] at h
              subst h
              simp only [parseEntry, hreg, ih4 ctx v _ hc, Bind.bind, Except.bind,
                pure, Except.pure]
        | norK =>
          rcases hc : parseLogicalPayloadN n ctx v with _ | ec
          · simp only [parseEntryN, hreg, hc] at h
            exact Option.noConfusion h
          · rcases ec with e | ls
            · simp only [parseEntryN, hreg, hc, Option.some.injEq] at h
              subst h
              simp only [parseEntry, hreg, ih4 ctx v _ hc, Bind.bind, Except.bind]
            · simp only [parseEntryN, hreg, hc, Option.some.injEq] at h
              subst h
              simp only [parseEntry, hreg, ih4 ctx v _ hc, Bind.bind, Except.bind,
                pure, Except.pure]
        | regexK =>
          simp only [parseEntryN, hreg, Option.some.injEq] at h
          subst h
          simp only [parseEntry, hreg]
        | mongoK =>
          simp only [parseEntryN, hreg, Option.some.injEq] at h
          subst h
          simp only [parseEntry, hreg]
    · intro ctx v r h
      cases v with
      | vlist xs =>
        simp only [parseLogicalPayloadN] at h
        simp only [parseLogicalPayload]
        exact ih5 ctx xs r h
      | vdict kvs =>
        cases kvs with
        | nil =>
          simp only [parseLogicalPayloadN, Option.some.injEq] at h
          subst h
          simp [parseLogicalPayload]
        | cons kv rest =>
          simp only [parseLogicalPayloadN, Option.some.injEq] at h
          subst h
          simp [parseLogicalPayload]
      | vstr s =>
        rcases hse : s.data.isEmpty with _ | _
        · simp only [parseLogicalPayloadN, hse, Bool.false_eq_true, if_false,
            Option.some.injEq] at h
          subst h
          simp only [parseLogicalPayload, hse, Bool.false_eq_true, if_false]
        · simp only [parseLogicalPayloadN, hse, eq_self_iff_true, if_true,
            Option.some.injEq] at h
          subst h
          simp only [parseLogicalPayload, hse, eq_self_iff_true, if_true]
      | vint m =>
        simp only [parseLogicalPayloadN, Option.some.injEq] at h
        subst h
        simp [parseLogicalPayload]
      | vbool b =>
        simp only [parseLogicalPayloadN, Option.some.injEq] at h
        subst h
        simp [parseLogicalPayload]
      | vnull =>
        simp only [parseLogicalPayloadN, Option.some.injEq] at h
        subst h
        simp [parseLogicalPayload]
    · intro ctx l r h
      cases l with
      | nil =>
        simp only [parseSelListN, Option.some.injEq] at h
        subst h
        simp [parseSelList]
      | cons x xs =>
        rcases hp : parseSelN n ctx x with _ | ep
        · simp only [parseSelListN, hp] at h
          exact Option.noConfusion h
        · rcases ep with e | p
          · simp only [parseSelListN, hp, Option.some.injEq] at h
            subst h
            simp only [parseSelList, ih1 ctx x _ hp, Bind.bind, Except.bind]
          · rcases hr : parseSelListN n ctx xs with _ | er
            · simp only [parseSelListN, hp, hr] at h
              exact Option.noConfusion h
            · rcases er with e | ps
              · simp only [parseSelListN, hp, hr, Option.some.injEq] at h
                subst h
                simp only [parseSelList, ih1 ctx x _ hp, ih5 ctx xs _ hr,
                  Bind.bind, Except.bind]
              · simp only [parseSelListN, hp, hr, Option.some.injEq] at h
                subst h
                simp only [parseSelList, ih1 ctx x _ hp, ih5 ctx xs _ hr,
                  Bind.bind, Except.bind, pure, Except.pure]

/-! ## Claim C10 -/

/-- C10: translating a selector whose $and, $or or $nor payload is the
empty list for the kv backend raises a TypeError (functools.reduce over the
empty emission list), not a filter and not one of the errors the
specification classifies as TranslationError; kv translation is therefore
total only when every logical operator payload is non-empty. -/
theorem claim_C10_kv_empty_logical_payload (m : RedisModelT) :
    toRedisFilters m (.vdict [("$and", .vlist [])]) = .error .typeError ∧
    toRedisFilters m (.vdict [("$or", .vlist [])]) = .error .typeError ∧
    toRedisFilters m (.vdict [("$nor", .vlist [])]) = .error .typeError ∧
    isTranslationErr .typeError = false := by
  refine ⟨?_, ?_, ?_, rfl⟩ <;>
    simp only [toRedisFilters, parseSel, parseEntries, parseEntry, parseLogicalPayload,
      parseSelList, toRedisPred, toRedisPredList, toRedisPredLL, redisAnd, redisOr,
      List.map_nil, Bind.bind, Except.bind, pure, Except.pure,
      (by decide : registryLookup "$and" = some RegKind.andK),
      (by decide : registryLookup "$or" = some RegKind.orK),
      (by decide : registryLookup "$nor" = some RegKind.norK)]

/-! ## Claim C4 -/

/-- C4: the $nor emissions flatten the per-sub-selector filter tuples, so
for the single two-key sub-selector (a equals 1 and b equals 2) both
backends emit the conjunction of the negated leaves instead of the negated
conjunction: the record (a = 1, b = 3) lies in the complement of the union
of the sub-selector match sets (the conjunction of the sub-selector
filters is false on it), yet the emitted relational filter
NOT(a = 1 OR b = 2) and the emitted kv filter NOT(a = 1) AND NOT(b = 2)
both reject it.  This contradicts the claimed complement-of-union
semantics (and the NorPredicate docstring, no expression is true). -/
theorem claim_C4_nor_not_complement_of_union :
    toSqlFilters norModelSql norSelector =
      .ok [.notE (.orE [.cmp .eq ⟨"t", "a"⟩ (.vint 1), .cmp .eq ⟨"t", "b"⟩ (.vint 2)])] ∧
    toRedisFilters norModelRedis norSelector =
      .ok [.andE (.notE (.cmp .eq "a" (.vint 1))) (.notE (.cmp .eq "b" (.vint 2)))] ∧
    toSqlFilters norModelSql norSubSelector =
      .ok [.cmp .eq ⟨"t", "a"⟩ (.vint 1), .cmp .eq ⟨"t", "b"⟩ (.vint 2)] ∧
    evalSqlAll (flatEnv "t" norRecord)
      [.cmp .eq ⟨"t", "a"⟩ (.vint 1), .cmp .eq ⟨"t", "b"⟩ (.vint 2)] = false ∧
    evalSql (flatEnv "t" norRecord)
      (.notE (.orE [.cmp .eq ⟨"t", "a"⟩ (.vint 1), .cmp .eq ⟨"t", "b"⟩ (.vint 2)])) = false ∧
    evalRedis norRecord
      (.andE (.notE (.cmp .eq "a" (.vint 1))) (.notE (.cmp .eq "b" (.vint 2)))) = false := by
  refine ⟨?_, ?_, ?_, ?_, ?_, ?_⟩
  · have h1 : parseSel (⟨some (getSqlNestedField norModelSql), none⟩ : ParseCtx SqlFieldRef)
        norSelector =
        .ok [.norP [[.fieldP "a" (some (.col "t" "a" false))
                       [.opP .eq (some (.col "t" "a" false)) (.vint 1)],
                     .fieldP "b" (some (.col "t" "b" false))
                       [.opP .eq (some (.col "t" "b" false)) (.vint 2)]]]] :=
      (parseN_sound 40).1 _ _ _ rfl
    rw [toSqlFilters, h1]
    simp only [toSqlPred, toSqlPredList, toSqlPredLL, sqlAnd, sqlOr,
      List.cons_append, List.nil_append, Bind.bind, Except.bind, pure, Except.pure]
  · have h1 : parseSel (⟨some (getRedisNestedField norModelRedis), none⟩ : ParseCtx String)
        norSelector =
        .ok [.norP [[.fieldP "a" (some "a") [.opP .eq (some "a") (.vint 1)],
                     .fieldP "b" (some "b") [.opP .eq (some "b") (.vint 2)]]]] :=
      (parseN_sound 40).1 _ _ _ rfl
    rw [toRedisFilters, h1]
    simp only [toRedisPred, toRedisPredList, toRedisPredLL, redisAnd, redisOr,
      List.map_cons, List.map_nil, List.foldl_cons, List.foldl_nil,
      List.cons_append, List.nil_append, Bind.bind, Except.bind, pure, Except.pure]
  · have h1 : parseSel (⟨some (getSqlNestedField norModelSql), none⟩ : ParseCtx SqlFieldRef)
        norSubSelector =
        .ok [.fieldP "a" (some (.col "t" "a" false))
               [.opP .eq (some (.col "t" "a" false)) (.vint 1)],
             .fieldP "b" (some (.col "t" "b" false))
               [.opP .eq (some (.col "t" "b" false)) (.vint 2)]] :=
      (parseN_sound 40).1 _ _ _ rfl
    rw [toSqlFilters, h1]
    simp only [toSqlPred, toSqlPredList, sqlAnd,
      List.cons_append, List.nil_append, Bind.bind, Except.bind, pure, Except.pure]
  · simp only [evalSqlAll, evalSql, cmpMatches, flatEnv, attrLookup, norRecord,
      List.find?, BEq.beq, instBEqDVal, DVal.beq, List.cons_append, List.nil_append,
      Bool.and_false, Bool.false_and, Bool.and_true, Bool.true_and]
    decide
  · simp only [evalSql, evalSqlAll, evalSqlAny, cmpMatches, flatEnv, attrLookup,
      norRecord, List.find?, BEq.beq, instBEqDVal, DVal.beq]
    decide
  · simp only [evalRedis, cmpMatches, attrLookup, norRecord, List.find?,
      BEq.beq, instBEqDVal, DVal.beq]
    decide

/-! ## Claim C6 -/

/-- C6 counterexample: the parser performs no scalar rewrite.  Translating
the field selector with the scalar payload (name, Hoima) raises
AttributeError (the parser iterates value.items(), which a scalar does not
have), while translating the operator-map form succeeds, so the two
translations are not equal as the claim states. -/
theorem claim_C6_counterexample :
    toSqlFilters libModelSql (.vdict [("name", .vstr "Hoima")]) = .error .attributeError ∧
    toRedisFilters libModelRedis (.vdict [("name", .vstr "Hoima")]) = .error .attributeError ∧
    toSqlFilters libModelSql (.vdict [("name", .vdict [("$eq", .vstr "Hoima")])]) =
      .ok [.cmp .eq ⟨libTable, "name"⟩ (.vstr "Hoima")] ∧
    (Except.error .attributeError : Except PyErr (List SqlExpr)) ≠
      .ok [.cmp .eq ⟨libTable, "name"⟩ (.vstr "Hoima")] := by
  have hp1 : parseSel (⟨some (getSqlNestedField libModelSql), none⟩ : ParseCtx SqlFieldRef)
      (.vdict [("name", .vstr "Hoima")]) = .error .attributeError :=
    (parseN_sound 40).1 _ _ _ rfl
  have hp2 : parseSel (⟨some (getRedisNestedField libModelRedis), none⟩ : ParseCtx String)
      (.vdict [("name", .vstr "Hoima")]) = .error .attributeError :=
    (parseN_sound 40).1 _ _ _ rfl
  have hp3 : parseSel (⟨some (getSqlNestedField libModelSql), none⟩ : ParseCtx SqlFieldRef)
      (.vdict [("name", .vdict [("$eq", .vstr "Hoima")])]) =
      .ok [.fieldP "name" (some (.col libTable "name" true))
             [.opP .eq (some (.col libTable "name" true)) (.vstr "Hoima")]] :=
    (parseN_sound 40).1 _ _ _ rfl
  refine ⟨?_, ?_, ?_, by intro h; exact Except.noConfusion h⟩
  · rw [toSqlFilters, hp1]
    rfl
  · rw [toRedisFilters, hp2]
    rfl
  · rw [toSqlFilters, hp3]
    simp only [toSqlPred, toSqlPredList, sqlAnd, List.cons_append, List.nil_append,
      Bind.bind, Except.bind, pure, Except.pure]

/-- C6 amended: a field key whose payload is a scalar is not rewritten to
an equality operator map; instead translation fails with AttributeError on
both translating backends (either the field fails to resolve, or the
parser calls items() on the scalar payload). -/
theorem claim_C6_scalar_payload_errors (msql : SqlModelT) (mredis : RedisModelT)
    (k : String) (v : DVal) (hk : startsDollar k = false) (hv : scalarVal v = true) :
    toSqlFilters msql (.vdict [(k, v)]) = .error .attributeError ∧
    toRedisFilters mredis (.vdict [(k, v)]) = .error .attributeError := by
  have hreg := registryLookup_eq_none k hk
  have hscalar : ∀ (ρ : Type) (ctx : ParseCtx ρ), parseSel ctx v = .error .attributeError := by
    intro ρ ctx
    cases v <;> simp_all [parseSel, scalarVal]
  constructor
  · rw [toSqlFilters]
    simp only [parseSel, parseEntries, parseEntry, resolveField, hreg, hk,
      Bool.false_eq_true, if_false, Bind.bind, Except.bind, Except.map]
    rcases hres : getSqlNestedField msql k with e | fr
    · have he := getSqlNestedField_error msql k e hres
      subst he
      simp only [hres]
    · simp only [hres, hscalar]
  · rw [toRedisFilters]
    simp only [parseSel, parseEntries, parseEntry, resolveField, hreg, hk,
      Bool.false_eq_true, if_false, Bind.bind, Except.bind, Except.map]
    rcases hres : getRedisNestedField mredis k with e | fr
    · have he := getRedisNestedField_error mredis k e hres
      subst he
      simp only [hres]
    · simp only [hres, hscalar]

/-- C6 witness: the amended statement applied to the concrete scalar field
selector (name, Hoima) on the test models. -/
theorem claim_C6_scalar_payload_errors_witness :
    startsDollar "name" = false ∧ scalarVal (.vstr "Hoima") = true ∧
    (toSqlFilters libModelSql (.vdict [("name", .vstr "Hoima")]) = .error .attributeError ∧
     toRedisFilters libModelRedis (.vdict [("name", .vstr "Hoima")]) = .error .attributeError) :=
  ⟨by decide, by decide,
    claim_C6_scalar_payload_errors libModelSql libModelRedis "name" (.vstr "Hoima")
      (by decide) (by decide)⟩

/-! ## Claim C8 -/

theorem hasUpdateOpKey_iff (u : List (String × DVal)) :
    hasUpdateOpKey u = true ↔ ∃ kv ∈ u, startsDollar kv.1 = true := by
  induction u with
  | nil => simp [hasUpdateOpKey]
  | cons kv rest ih =>
    rw [hasUpdateOpKey]
    by_cases h : startsDollar kv.1 = true
    · have hm : updateOpMatch kv.1 = true := by rw [updateOpMatch]; exact h
      rw [if_pos hm]
      exact ⟨fun _ => ⟨kv, List.mem_cons_self _ _, h⟩, fun _ => rfl⟩
    · have hm : ¬updateOpMatch kv.1 = true := by rw [updateOpMatch]; exact h
      rw [if_neg hm, ih]
      constructor
      · rintro ⟨kv1, hmem, hkv1⟩
        exact ⟨kv1, List.mem_cons_of_mem _ hmem, hkv1⟩
      · rintro ⟨kv1, hmem, hkv1⟩
        rcases List.mem_cons.mp hmem with heq | hmem1
        · subst heq
          exact absurd hkv1 h
        · exact ⟨kv1, hmem1, hkv1⟩

theorem ne_self_set_wrap (u : List (String × DVal)) :
    u ≠ [("$set", DVal.vdict u)] := by
  intro h
  have hs := congrArg sizeOf h
  simp at hs
  omega

/-- C8: _to_mongo_updates wraps the update dict as a single $set exactly
when no top-level key matches the anchored update-operator pattern, which
succeeds exactly on keys whose first character is a dollar sign; when some
key does start with a dollar sign the whole dict is returned unchanged,
remaining plain keys included. -/
theorem claim_C8_mongo_update_wrapping (u : List (String × DVal)) :
    (toMongoUpdates u = [("$set", DVal.vdict u)] ↔ ∀ kv ∈ u, startsDollar kv.1 = false) ∧
    ((∃ kv ∈ u, startsDollar kv.1 = true) → toMongoUpdates u = u) := by
  have hne := ne_self_set_wrap u
  rw [toMongoUpdates]
  by_cases h : hasUpdateOpKey u = true
  · rcases (hasUpdateOpKey_iff u).mp h with ⟨kv, hmem, hkv⟩
    rw [if_pos h]
    constructor
    · constructor
      · intro hu
        exact absurd hu hne
      · intro hall
        exact absurd (hall kv hmem) (by simp [hkv])
    · intro _
      rfl
  · have hnone : ∀ kv ∈ u, startsDollar kv.1 = false := by
      intro kv hmem
      by_contra hc
      exact h ((hasUpdateOpKey_iff u).mpr
        ⟨kv, hmem, eq_true_of_ne_false (fun hf => hc hf)⟩)
    rw [if_neg h]
    constructor
    · exact ⟨fun _ => hnone, fun _ => rfl⟩
    · rintro ⟨kv, hmem, hkv⟩
      exact absurd (hnone kv hmem) (by simp [hkv])

/-- C8 witness: the wrapping applied to a plain dict and the pass-through
applied to a dict led by an update operator. -/
theorem claim_C8_mongo_update_wrapping_witness :
    (toMongoUpdates [("name", .vstr "x")] =
        [("$set", DVal.vdict [("name", .vstr "x")])] ↔
      ∀ kv ∈ [("name", DVal.vstr "x")], startsDollar kv.1 = false) ∧
    ((∃ kv ∈ [("$push", DVal.vnull), ("name", DVal.vstr "x")], startsDollar kv.1 = true) →
      toMongoUpdates [("$push", .vnull), ("name", .vstr "x")] =
        [("$push", .vnull), ("name", .vstr "x")]) :=
  ⟨(claim_C8_mongo_update_wrapping [("name", .vstr "x")]).1,
   (claim_C8_mongo_update_wrapping [("$push", .vnull), ("name", .vstr "x")]).2⟩

/-! ## Claim C9 -/

/-- C9: inserting one post that carries a many-to-many tags payload into an
empty database creates the post row and the tag row, but no row in the
link-model table, and the refetched post therefore comes back with an empty
tags relation.  This contradicts the claimed insertion of (parentId,
childId) link rows during insert (the blog example test expects the tags
attached after insert); link rows are only written by the update path. -/
theorem claim_C9_insert_writes_no_link_rows :
    sqlInsertM2m ⟨[], [], []⟩
        [[("title", .vstr "Boo"), ("tags", .vlist [.vdict [("title", .vstr "random")]])]] =
      .ok (⟨[⟨1, [("title", .vstr "Boo")]⟩], [⟨1, [("title", .vstr "random")]⟩], []⟩,
           [(⟨1, [("title", .vstr "Boo")]⟩, [])]) := by
  simp only [sqlInsertM2m, embeddedTagItems, attrLookup, maxPostId, maxTagId, tagsOf,
    List.find?, List.enum, List.enumFrom, List.map_cons, List.map_nil, List.mapM,
    List.mapM.loop, List.flatten, List.filter, List.filterMap, List.foldl,
    List.cons_append, List.nil_append, List.append_nil,
    Bind.bind, Except.bind, pure, Except.pure]
  simp [List.contains, List.mapM.loop, List.enumFrom, List.flatten]

/-! ## Claim C3 -/

/-- C3 amended: for update and delete, exactly the filters exposing a
related-table Column as a DIRECT child are rewritten by
_get_relational_filters into the single filter model.id IN (SELECT
model.id INNER JOIN each-filtered-relation WHERE
original-relational-filters), the original relational filters appearing
unchanged as the where clause of the subquery; every other filter —
including a compound filter whose deep columns live in the related table,
see the counterexample — is passed through unchanged by
_get_non_relational_filters.  The final conjunct characterizes the
semantics of the rewritten filter: a parent passes it exactly when some of
its joined book rows satisfies all the original relational filters. -/
theorem claim_C3_subquery_rewrite (fs : List SqlExpr)
    (h : ∃ f ∈ fs, isRelationalFilter f = true) :
    getRelationalFilters fs =
      [.inSubquery ⟨libTable, "id"⟩ ["books"] (fs.filter isRelationalFilter)] ∧
    getNonRelationalFilters fs = fs.filter (fun f => !isRelationalFilter f) ∧
    (∀ f ∈ getNonRelationalFilters fs, f ∈ fs) ∧
    (∀ (db : SqlDb) (p : LibRec),
      evalStoreFilter db p none
          (.inSubquery ⟨libTable, "id"⟩ ["books"] (fs.filter isRelationalFilter)) = true ↔
        ∃ q ∈ db.libs, q.id = p.id ∧ ∃ c ∈ db.books, c.library_id = some q.id ∧
          ∀ w ∈ fs.filter isRelationalFilter, evalSql (joinEnv q c) w = true) := by
  obtain ⟨f0, hf0, hrel0⟩ := h
  have hmemfil : f0 ∈ fs.filter isRelationalFilter := List.mem_filter.mpr ⟨hf0, hrel0⟩
  have hbook : (filteredTables (fs.filter isRelationalFilter)).contains bookTable = true := by
    apply List.elem_iff.mpr
    simp only [filteredTables, List.mem_flatMap, List.mem_map]
    have hrel1 := hrel0
    simp only [isRelationalFilter, List.any_eq_true, decide_eq_true_eq] at hrel1
    obtain ⟨c, hc, htab⟩ := hrel1
    exact ⟨f0, hmemfil, c, hc, htab⟩
  refine ⟨?_, rfl, ?_, ?_⟩
  · rw [getRelationalFilters]
    cases hfil : fs.filter isRelationalFilter with
    | nil => rw [hfil] at hmemfil; exact absurd hmemfil (List.not_mem_nil _)
    | cons r rs =>
      rw [hfil] at hbook
      rw [toSubqueryBasedFilters.eq_def]
      simp [hbook]
      exact List.elem_iff.mp hbook
  · intro f hf
    exact (List.mem_filter.mp hf).1
  · intro db p
    rw [evalStoreFilter, subqueryIds]
    simp only [(by decide : (["books"].contains "books") = true), if_true]
    rw [List.elem_iff]
    simp only [List.mem_flatMap, List.mem_filterMap, List.mem_filter,
      Option.ite_none_right_eq_some, Option.some.injEq, List.all_eq_true,
      beq_iff_eq]
    constructor
    · rintro ⟨q, hq, c, ⟨hcmem, hlink⟩, hall, hid⟩
      exact ⟨q, hq, hid, c, hcmem, hlink, hall⟩
    · rintro ⟨q, hq, hid, c, hcmem, hlink, hall⟩
      exact ⟨q, hq, c, ⟨hcmem, hlink⟩, hall, hid⟩

/-- C3 witness: the rewrite applied to a book-column filter together with a
library-column filter. -/
theorem claim_C3_subquery_rewrite_witness :
    getRelationalFilters [SqlExpr.cmp .eq ⟨bookTable, "title"⟩ (.vstr "Belljar"),
                          SqlExpr.cmp .eq ⟨libTable, "name"⟩ (.vstr "x")] =
      [.inSubquery ⟨libTable, "id"⟩ ["books"]
        [SqlExpr.cmp .eq ⟨bookTable, "title"⟩ (.vstr "Belljar")]] := by
  rw [(claim_C3_subquery_rewrite
    [SqlExpr.cmp .eq ⟨bookTable, "title"⟩ (.vstr "Belljar"),
     SqlExpr.cmp .eq ⟨libTable, "name"⟩ (.vstr "x")]
    ⟨SqlExpr.cmp .eq ⟨bookTable, "title"⟩ (.vstr "Belljar"),
     List.mem_cons_self _ _, by decide⟩).1]
  rfl

/-- C3 counterexample: the translator's own emission for the dotted
multi-operator payload {books.title: {$gt: A, $lt: Z}} is a two-clause
and_ over columns of the book table.  Its deep columns live in the related
table, yet _get_relational_filters classifies by direct Column children
only, so the filter is classified non-relational and passed through
unchanged instead of being rewritten to the id-IN-subquery form the claim
asserts for every filter referencing related-table columns. -/
theorem claim_C3_compound_filter_counterexample :
    toSqlFilters libModelSql
        (.vdict [("books.title", .vdict [("$gt", .vstr "A"), ("$lt", .vstr "Z")])]) =
      .ok [.andE [.cmp .gt ⟨bookTable, "title"⟩ (.vstr "A"),
                  .cmp .lt ⟨bookTable, "title"⟩ (.vstr "Z")]] ∧
    ((deepCols (.andE [.cmp .gt ⟨bookTable, "title"⟩ (.vstr "A"),
                       .cmp .lt ⟨bookTable, "title"⟩ (.vstr "Z")])).any
      (fun c => c.table = bookTable)) = true ∧
    getRelationalFilters [.andE [.cmp .gt ⟨bookTable, "title"⟩ (.vstr "A"),
                                 .cmp .lt ⟨bookTable, "title"⟩ (.vstr "Z")]] = [] ∧
    getNonRelationalFilters [.andE [.cmp .gt ⟨bookTable, "title"⟩ (.vstr "A"),
                                    .cmp .lt ⟨bookTable, "title"⟩ (.vstr "Z")]] =
      [.andE [.cmp .gt ⟨bookTable, "title"⟩ (.vstr "A"),
              .cmp .lt ⟨bookTable, "title"⟩ (.vstr "Z")]] := by
  have hp : parseSel (⟨some (getSqlNestedField libModelSql), none⟩ : ParseCtx SqlFieldRef)
      (.vdict [("books.title", .vdict [("$gt", .vstr "A"), ("$lt", .vstr "Z")])]) =
      .ok [.fieldP "books.title" (some (.col bookTable "title" true))
            [.opP .gt (some (.col bookTable "title" true)) (.vstr "A"),
             .opP .lt (some (.col bookTable "title" true)) (.vstr "Z")]] :=
    (parseN_sound 40).1 _ _ _ rfl
  refine ⟨?_, by decide, rfl, rfl⟩
  rw [toSqlFilters, hp]
  simp only [toSqlPred, toSqlPredList, sqlAnd, List.cons_append, List.nil_append,
    Bind.bind, Except.bind, pure, Except.pure]

/-! ## Claim C5 -/

/-- A selector accepted by the parser contains no unknown dollar-prefixed
key at any position the parser examines: _get_predicate_cls raises
NotImplementedError on the first such key, so a successful parse certifies
their absence.  Proved by the joint functional induction of the parser. -/
theorem parseSel_ok_no_unknown {ρ : Type} (ctx : ParseCtx ρ) (v : DVal) :
    ∀ ps, parseSel ctx v = Except.ok ps → hasUnknownSel v = false := by
  refine parseSel.induct
    (fun _ctx v => ∀ ps, parseSel _ctx v = Except.ok ps → hasUnknownSel v = false)
    (fun _ctx raw l => ∀ ps, parseEntries _ctx raw l = Except.ok ps →
      hasUnknownEntries l = false)
    (fun _ctx raw k v => ∀ p, parseEntry _ctx raw k v = Except.ok p →
      hasUnknownEntry k v = false)
    (fun _ctx v => ∀ ls, parseLogicalPayload _ctx v = Except.ok ls →
      hasUnknownPayload v = false)
    (fun _ctx l => ∀ ls, parseSelList _ctx l = Except.ok ls →
      hasUnknownSelList l = false)
    ?_ ?_ ?_ ?_ ?_ ?_ ?_ ?_ ?_ ?_ ?_ ?_ ?_ ?_ ?_ ?_ ?_ ?_ ?_ ?_ ?_ ctx v
  · intro ctx kvs ih ps h
    simp only [parseSel] at h
    simp only [hasUnknownSel]
    exact ih ps h
  · intro ctx x hx ps h
    cases x <;> first
      | exact absurd rfl (hx _)
      | simp [hasUnknownSel]
  · intro ctx raw ps h
    simp [hasUnknownEntries]
  · intro ctx raw k v rest ih1 ih2 ps h
    rcases hp : parseEntry ctx raw k v with e | p1
    · simp only [parseEntries, hp, Bind.bind, Except.bind] at h
      exact Except.noConfusion h
    · rcases hr : parseEntries ctx raw rest with e | ps1
      · simp only [parseEntries, hp, hr, Bind.bind, Except.bind] at h
        exact Except.noConfusion h
      · simp only [hasUnknownEntries, ih1 p1 hp, ih2 ps1 hr, Bool.or_self]
  · intro ctx raw k v c hreg p h
    simp only [hasUnknownEntry, hreg]
  · intro ctx raw k v hreg ih p h
    simp only [hasUnknownEntry, hreg]
    rcases hc : parseSel (⟨none, ctx.field⟩ : ParseCtx ρ) v with e | children
    · simp only [parseEntry, hreg, hc, Bind.bind, Except.bind] at h
      exact Except.noConfusion h
    · exact ih children hc
  · intro ctx raw k v hreg ih p h
    simp only [hasUnknownEntry, hreg]
    rcases hc : parseLogicalPayload ctx v with e | ls
    · simp only [parseEntry, hreg, hc, Bind.bind, Except.bind] at h
      exact Except.noConfusion h
    · exact ih ls hc
  · intro ctx raw k v hreg ih p h
    simp only [hasUnknownEntry, hreg]
    rcases hc : parseLogicalPayload ctx v with e | ls
    · simp only [parseEntry, hreg, hc, Bind.bind, Except.bind] at h
      exact Except.noConfusion h
    · exact ih ls hc
  · intro ctx raw k v hreg ih p h
    simp only [hasUnknownEntry, hreg]
    rcases hc : parseLogicalPayload ctx v with e | ls
    · simp only [parseEntry, hreg, hc, Bind.bind, Except.bind] at h
      exact Except.noConfusion h
    · exact ih ls hc
  · intro ctx raw k v hreg p h
    simp only [hasUnknownEntry, hreg]
  · intro ctx raw k v hreg p h
    simp only [hasUnknownEntry, hreg]
  · intro ctx raw k v hreg hd p h
    simp only [parseEntry, hreg, hd, eq_self_iff_true, if_true] at h
    exact Except.noConfusion h
  · intro ctx raw k v hreg hd ih p h
    have hd0 : startsDollar k = false := by
      cases hsd : startsDollar k
      · rfl
      · exact absurd hsd hd
    simp only [hasUnknownEntry, hreg, hd0, Bool.false_eq_true, if_false]
    rcases hres : resolveField ctx k with e | fr
    · simp only [parseEntry, hreg, hd0, Bool.false_eq_true, if_false, hres,
        Bind.bind, Except.bind] at h
      exact Except.noConfusion h
    · rcases hc : parseSel (⟨none, fr⟩ : ParseCtx ρ) v with e | children
      · simp only [parseEntry, hreg, hd0, Bool.false_eq_true, if_false, hres, hc,
          Bind.bind, Except.bind] at h
        exact Except.noConfusion h
      · exact ih fr children hc
  · intro ctx xs ih ls h
    simp only [parseLogicalPayload] at h
    simp only [hasUnknownPayload]
    exact ih ls h
  · intro ctx ls h
    simp [hasUnknownPayload]
  · intro ctx hd tl ls h
    simp [hasUnknownPayload]
  · intro ctx s hs ls h
    simp [hasUnknownPayload]
  · intro ctx s hs ls h
    simp [hasUnknownPayload]
  · intro ctx x h1 h2 h3 h4 ls h
    cases x <;> first
      | exact absurd rfl (h1 _)
      | simp [hasUnknownPayload]
  · intro ctx ls h
    simp [hasUnknownSelList]
  · intro ctx x xs ih1 ih2 ls h
    rcases hp : parseSel ctx x with e | p1
    · simp only [parseSelList, hp, Bind.bind, Except.bind] at h
      exact Except.noConfusion h
    · rcases hr : parseSelList ctx xs with e | ps1
      · simp only [parseSelList, hp, hr, Bind.bind, Except.bind] at h
        exact Except.noConfusion h
      · simp only [hasUnknownSelList, ih1 p1 hp, ih2 ps1 hr, Bool.or_self]

/-- C5: a selector containing an unknown dollar-prefixed operator key at a
position the parser examines never translates on either translating
backend: QueryParser._get_predicate_cls raises NotImplementedError
(selector not supported yet) during parsing, before any filter is emitted,
so such a selector is never silently accepted or partially applied. -/
theorem claim_C5_unknown_operator_rejected (msql : SqlModelT) (mr : RedisModelT)
    (s : DVal) (hs : hasUnknownSel s = true) :
    exOk (toSqlFilters msql s) = false ∧ exOk (toRedisFilters mr s) = false := by
  constructor
  · rcases hp : parseSel (⟨some (getSqlNestedField msql), none⟩ : ParseCtx SqlFieldRef) s
        with e | ps
    · simp only [toSqlFilters, hp, Bind.bind, Except.bind, exOk]
    · exact absurd (parseSel_ok_no_unknown _ s ps hp) (by simp [hs])
  · rcases hp : parseSel (⟨some (getRedisNestedField mr), none⟩ : ParseCtx String) s
        with e | ps
    · simp only [toRedisFilters, hp, Bind.bind, Except.bind, exOk]
    · exact absurd (parseSel_ok_no_unknown _ s ps hp) (by simp [hs])

/-- C5 witness: the selector (name, ($fancy, 1)) holds the unknown operator
$fancy under a field key, and both translations fail on it. -/
theorem claim_C5_unknown_operator_rejected_witness :
    hasUnknownSel (.vdict [("name", .vdict [("$fancy", .vint 1)])]) = true ∧
    exOk (toSqlFilters libModelSql (.vdict [("name", .vdict [("$fancy", .vint 1)])])) = false ∧
    exOk (toRedisFilters libModelRedis (.vdict [("name", .vdict [("$fancy", .vint 1)])])) = false := by
  have hs : hasUnknownSel (.vdict [("name", .vdict [("$fancy", .vint 1)])]) = true := by
    simp only [hasUnknownSel, hasUnknownEntries, hasUnknownEntry,
      Bool.false_eq_true, if_false, eq_self_iff_true, if_true, Bool.or_false,
      (by decide : registryLookup "name" = none),
      (by decide : startsDollar "name" = false),
      (by decide : registryLookup "$fancy" = none),
      (by decide : startsDollar "$fancy" = true)]
  have hmain := claim_C5_unknown_operator_rejected libModelSql libModelRedis
    (.vdict [("name", .vdict [("$fancy", .vint 1)])]) hs
  exact ⟨hs, hmain.1, hmain.2⟩

/-! ## Claim C7 -/

theorem exOk_toRedisPredList_cons (p : Pred String) (ps : List (Pred String))
    (h : exOk (toRedisPredList (p :: ps)) = true) :
    exOk (toRedisPred p) = true ∧ exOk (toRedisPredList ps) = true := by
  rcases hx : toRedisPred p with e | es
  · simp only [toRedisPredList, hx, Bind.bind, Except.bind, exOk,
      Bool.false_eq_true] at h
  · rcases hy : toRedisPredList ps with e | rest
    · simp only [toRedisPredList, hx, hy, Bind.bind, Except.bind, exOk,
        Bool.false_eq_true] at h
    · exact ⟨by simp [hx, exOk], by simp [hy, exOk]⟩

theorem exOk_toRedisPredLL_cons (l : List (Pred String)) (ls : List (List (Pred String)))
    (h : exOk (toRedisPredLL (l :: ls)) = true) :
    exOk (toRedisPredList l) = true ∧ exOk (toRedisPredLL ls) = true := by
  rcases hx : toRedisPredList l with e | es
  · simp only [toRedisPredLL, hx, Bind.bind, Except.bind, exOk,
      Bool.false_eq_true] at h
  · rcases hy : toRedisPredLL ls with e | rest
    · simp only [toRedisPredLL, hx, hy, Bind.bind, Except.bind, exOk,
        Bool.false_eq_true] at h
    · exact ⟨by simp [hx, exOk], by simp [hy, exOk]⟩

theorem exOk_toRedisPred_fieldP (n : String) (f : Option String)
    (children : List (Pred String))
    (h : exOk (toRedisPred (.fieldP n f children)) = true) :
    exOk (toRedisPredList children) = true := by
  rcases hx : toRedisPredList children with e | es
  · simp only [toRedisPred, hx, Bind.bind, Except.bind, exOk,
      Bool.false_eq_true] at h
  · simp [hx, exOk]

theorem exOk_toRedisPred_notP (f : Option String) (children : List (Pred String))
    (h : exOk (toRedisPred (.notP f children)) = true) :
    exOk (toRedisPredList children) = true := by
  rcases hx : toRedisPredList children with e | es
  · simp only [toRedisPred, hx, Bind.bind, Except.bind, exOk,
      Bool.false_eq_true] at h
  · simp [hx, exOk]

theorem exOk_toRedisPred_andP (ls : List (List (Pred String)))
    (h : exOk (toRedisPred (.andP ls)) = true) :
    exOk (toRedisPredLL ls) = true := by
  rcases hx : toRedisPredLL ls with e | es
  · simp only [toRedisPred, hx, Bind.bind, Except.bind, exOk,
      Bool.false_eq_true] at h
  · simp [hx, exOk]

theorem exOk_toRedisPred_orP (ls : List (List (Pred String)))
    (h : exOk (toRedisPred (.orP ls)) = true) :
    exOk (toRedisPredLL ls) = true := by
  rcases hx : toRedisPredLL ls with e | es
  · simp only [toRedisPred, hx, Bind.bind, Except.bind, exOk,
      Bool.false_eq_true] at h
  · simp [hx, exOk]

theorem exOk_toRedisPred_norP (ls : List (List (Pred String)))
    (h : exOk (toRedisPred (.norP ls)) = true) :
    exOk (toRedisPredLL ls) = true := by
  rcases hx : toRedisPredLL ls with e | es
  · simp only [toRedisPred, hx, Bind.bind, Except.bind, exOk,
      Bool.false_eq_true] at h
  · simp [hx, exOk]

theorem exOk_toRedisPred_regexP (f : Option String) (p o : DVal) :
    exOk (toRedisPred (.regexP f p o)) = false := by
  simp [toRedisPred, exOk]

/-- A selector whose parse AND kv emission both succeed contains no $regex
operator at any position the parser examines: RegexPredicate.to_redis
raises NotImplementedError unconditionally, and the emission of every
predicate tree visits every node, so a successful emission certifies the
absence of regex nodes.  Proved by the joint functional induction of the
parser, threading emission success through every case. -/
theorem parseSel_redis_ok_no_regex (ctx : ParseCtx String) (v : DVal) :
    ∀ ps, parseSel ctx v = Except.ok ps → exOk (toRedisPredList ps) = true →
      hasRegexSel v = false := by
  refine parseSel.induct
    (fun _ctx v => ∀ ps, parseSel _ctx v = Except.ok ps →
      exOk (toRedisPredList ps) = true → hasRegexSel v = false)
    (fun _ctx raw l => ∀ ps, parseEntries _ctx raw l = Except.ok ps →
      exOk (toRedisPredList ps) = true → hasRegexEntries l = false)
    (fun _ctx raw k v => ∀ p, parseEntry _ctx raw k v = Except.ok p →
      exOk (toRedisPred p) = true → hasRegexEntry k v = false)
    (fun _ctx v => ∀ ls, parseLogicalPayload _ctx v = Except.ok ls →
      exOk (toRedisPredLL ls) = true → hasRegexPayload v = false)
    (fun _ctx l => ∀ lls, parseSelList _ctx l = Except.ok lls →
      exOk (toRedisPredLL lls) = true → hasRegexSelList l = false)
    ?_ ?_ ?_ ?_ ?_ ?_ ?_ ?_ ?_ ?_ ?_ ?_ ?_ ?_ ?_ ?_ ?_ ?_ ?_ ?_ ?_ ctx v
  · intro ctx kvs ih ps h hok
    simp only [parseSel] at h
    simp only [hasRegexSel]
    exact ih ps h hok
  · intro ctx x hx ps h hok
    cases x <;> first
      | exact absurd rfl (hx _)
      | simp [hasRegexSel]
  · intro ctx raw ps h hok
    simp [hasRegexEntries]
  · intro ctx raw k v rest ih1 ih2 ps h hok
    rcases hp : parseEntry ctx raw k v with e | p1
    · simp only [parseEntries, hp, Bind.bind, Except.bind] at h
      exact Except.noConfusion h
    · rcases hr : parseEntries ctx raw rest with e | ps1
      · simp only [parseEntries, hp, hr, Bind.bind, Except.bind] at h
        exact Except.noConfusion h
      · simp only [parseEntries, hp, hr, Bind.bind, Except.bind, pure, Except.pure,
          Except.ok.injEq] at h
        subst h
        obtain ⟨hok1, hok2⟩ := exOk_toRedisPredList_cons p1 ps1 hok
        simp only [hasRegexEntries, ih1 p1 hp hok1, ih2 ps1 hr hok2, Bool.or_self]
  · intro ctx raw k v c hreg p h hok
    simp only [hasRegexEntry, hreg]
  · intro ctx raw k v hreg ih p h hok
    simp only [hasRegexEntry, hreg]
    rcases hc : parseSel (⟨none, ctx.field⟩ : ParseCtx String) v with e | children
    · simp only [parseEntry, hreg, hc, Bind.bind, Except.bind] at h
      exact Except.noConfusion h
    · simp only [parseEntry, hreg, hc, Bind.bind, Except.bind, pure, Except.pure,
        Except.ok.injEq] at h
      subst h
      exact ih children hc (exOk_toRedisPred_notP ctx.field children hok)
  · intro ctx raw k v hreg ih p h hok
    simp only [hasRegexEntry, hreg]
    rcases hc : parseLogicalPayload ctx v with e | ls
    · simp only [parseEntry, hreg, hc, Bind.bind, Except.bind] at h
      exact Except.noConfusion h
    · simp only [parseEntry, hreg, hc, Bind.bind, Except.bind, pure, Except.pure,
        Except.ok.injEq] at h
      subst h
      exact ih ls hc (exOk_toRedisPred_andP ls hok)
  · intro ctx raw k v hreg ih p h hok
    simp only [hasRegexEntry, hreg]
    rcases hc : parseLogicalPayload ctx v with e | ls
    · simp only [parseEntry, hreg, hc, Bind.bind, Except.bind] at h
      exact Except.noConfusion h
    · simp only [parseEntry, hreg, hc, Bind.bind, Except.bind, pure, Except.pure,
        Except.ok.injEq] at h
      subst h
      exact ih ls hc (exOk_toRedisPred_orP ls hok)
  · intro ctx raw k v hreg ih p h hok
    simp only [hasRegexEntry, hreg]
    rcases hc : parseLogicalPayload ctx v with e | ls
    · simp only [parseEntry, hreg, hc, Bind.bind, Except.bind] at h
      exact Except.noConfusion h
    · simp only [parseEntry, hreg, hc, Bind.bind, Except.bind, pure, Except.pure,
        Except.ok.injEq] at h
      subst h
      exact ih ls hc (exOk_toRedisPred_norP ls hok)
  · intro ctx raw k v hreg p h hok
    simp only [parseEntry, hreg, Except.ok.injEq] at h
    subst h
    rw [exOk_toRedisPred_regexP] at hok
    exact Bool.noConfusion hok
  · intro ctx raw k v hreg p h hok
    simp only [hasRegexEntry, hreg]
  · intro ctx raw k v hreg hd p h hok
    simp only [parseEntry, hreg, hd, eq_self_iff_true, if_true] at h
    exact Except.noConfusion h
  · intro ctx raw k v hreg hd ih p h hok
    have hd0 : startsDollar k = false := by
      cases hsd : startsDollar k
      · rfl
      · exact absurd hsd hd
    simp only [hasRegexEntry, hreg, hd0, Bool.false_eq_true, if_false]
    rcases hres : resolveField ctx k with e | fr
    · simp only [parseEntry, hreg, hd0, Bool.false_eq_true, if_false, hres,
        Bind.bind, Except.bind] at h
      exact Except.noConfusion h
    · rcases hc : parseSel (⟨none, fr⟩ : ParseCtx String) v with e | children
      · simp only [parseEntry, hreg, hd0, Bool.false_eq_true, if_false, hres, hc,
          Bind.bind, Except.bind] at h
        exact Except.noConfusion h
      · simp only [parseEntry, hreg, hd0, Bool.false_eq_true, if_false, hres, hc,
          Bind.bind, Except.bind, pure, Except.pure, Except.ok.injEq] at h
        subst h
        exact ih fr children hc (exOk_toRedisPred_fieldP k fr children hok)
  · intro ctx xs ih ls h hok
    simp only [parseLogicalPayload] at h
    simp only [hasRegexPayload]
    exact ih ls h hok
  · intro ctx ls h hok
    simp [hasRegexPayload]
  · intro ctx hd tl ls h hok
    simp [hasRegexPayload]
  · intro ctx s hs ls h hok
    simp [hasRegexPayload]
  · intro ctx s hs ls h hok
    simp [hasRegexPayload]
  · intro ctx x h1 h2 h3 h4 ls h hok
    cases x <;> first
      | exact absurd rfl (h1 _)
      | simp [hasRegexPayload]
  · intro ctx lls h hok
    simp [hasRegexSelList]
  · intro ctx x xs ih1 ih2 lls h hok
    rcases hp : parseSel ctx x with e | p1
    · simp only [parseSelList, hp, Bind.bind, Except.bind] at h
      exact Except.noConfusion h
    · rcases hr : parseSelList ctx xs with e | ps1
      · simp only [parseSelList, hp, hr, Bind.bind, Except.bind] at h
        exact Except.noConfusion h
      · simp only [parseSelList, hp, hr, Bind.bind, Except.bind, pure, Except.pure,
          Except.ok.injEq] at h
        subst h
        obtain ⟨hok1, hok2⟩ := exOk_toRedisPredLL_cons p1 ps1 hok
        simp only [hasRegexSelList, ih1 p1 hp hok1, ih2 ps1 hr hok2, Bool.or_self]

/-- C7: a selector containing a $regex operator never translates for the kv
backend (RegexPredicate.to_redis raises NotImplementedError, a classified
TranslationError), and on the canonical regex selector
(name, ($regex, ^b), ($options, i)) of the test schema the kv translation
produces exactly that error, while the relational translation succeeds with
a REGEXP match (the inline flag group is prefixed on sqlite since the
options are truthy) and the document backend passes the selector through
untranslated. -/
theorem claim_C7_regex_kv_unsupported (mr : RedisModelT) (s : DVal)
    (hs : hasRegexSel s = true) :
    exOk (toRedisFilters mr s) = false ∧
    toRedisFilters libModelRedis
        (.vdict [("name", .vdict [("$regex", .vstr "^b"), ("$options", .vstr "i")])]) =
      .error (.notImplementedError "redis text search is too inexpressive for regex.") ∧
    isTranslationErr
      (.notImplementedError "redis text search is too inexpressive for regex.") = true ∧
    toSqlFilters libModelSql
        (.vdict [("name", .vdict [("$regex", .vstr "^b"), ("$options", .vstr "i")])]) =
      .ok [.regexpMatch ⟨libTable, "name"⟩ "(?i)^b" "i"] ∧
    mongoQueryFilters []
        (some (.vdict [("name", .vdict [("$regex", .vstr "^b"), ("$options", .vstr "i")])])) =
      [.vdict [("name", .vdict [("$regex", .vstr "^b"), ("$options", .vstr "i")])]] := by
  refine ⟨?_, ?_, rfl, ?_, rfl⟩
  · rcases hp : parseSel (⟨some (getRedisNestedField mr), none⟩ : ParseCtx String) s
        with e | ps
    · simp only [toRedisFilters, hp, Bind.bind, Except.bind, exOk]
    · rcases hq : toRedisPredList ps with e | es
      · simp only [toRedisFilters, hp, hq, Bind.bind, Except.bind, exOk]
      · have hnone := parseSel_redis_ok_no_regex _ s ps hp (by simp [hq, exOk])
        exact absurd hnone (by simp [hs])
  · have h1 : parseSel (⟨some (getRedisNestedField libModelRedis), none⟩ : ParseCtx String)
        (.vdict [("name", .vdict [("$regex", .vstr "^b"), ("$options", .vstr "i")])]) =
        .ok [.fieldP "name" (some "name")
              [.regexP (some "name") (.vstr "^b") (.vstr "i"),
               .mongoP "$options" (.vstr "i")]] :=
      (parseN_sound 40).1 _ _ _ rfl
    rw [toRedisFilters, h1]
    simp only [toRedisPred, toRedisPredList, Bind.bind, Except.bind]
  · have h2 : parseSel (⟨some (getSqlNestedField libModelSql), none⟩ : ParseCtx SqlFieldRef)
        (.vdict [("name", .vdict [("$regex", .vstr "^b"), ("$options", .vstr "i")])]) =
        .ok [.fieldP "name" (some (.col libTable "name" true))
              [.regexP (some (.col libTable "name" true)) (.vstr "^b") (.vstr "i"),
               .mongoP "$options" (.vstr "i")]] :=
      (parseN_sound 40).1 _ _ _ rfl
    rw [toSqlFilters, h2]
    simp only [toSqlPred, toSqlPredList, sqlAnd, asPyStr, List.cons_append,
      List.nil_append, Bind.bind, Except.bind, pure, Except.pure,
      (by decide : (true && pyTruthy (.vstr "i")) = true), eq_self_iff_true, if_true]
    rfl

/-- C7 witness: the claim applied at the canonical regex selector on the
test models. -/
theorem claim_C7_regex_kv_unsupported_witness :
    hasRegexSel (.vdict [("name", .vdict [("$regex", .vstr "^b"), ("$options", .vstr "i")])]) = true ∧
    (exOk (toRedisFilters libModelRedis
        (.vdict [("name", .vdict [("$regex", .vstr "^b"), ("$options", .vstr "i")])])) = false ∧
     toRedisFilters libModelRedis
        (.vdict [("name", .vdict [("$regex", .vstr "^b"), ("$options", .vstr "i")])]) =
       .error (.notImplementedError "redis text search is too inexpressive for regex.") ∧
     isTranslationErr
       (.notImplementedError "redis text search is too inexpressive for regex.") = true ∧
     toSqlFilters libModelSql
        (.vdict [("name", .vdict [("$regex", .vstr "^b"), ("$options", .vstr "i")])]) =
       .ok [.regexpMatch ⟨libTable, "name"⟩ "(?i)^b" "i"] ∧
     mongoQueryFilters []
        (some (.vdict [("name", .vdict [("$regex", .vstr "^b"), ("$options", .vstr "i")])])) =
       [.vdict [("name", .vdict [("$regex", .vstr "^b"), ("$options", .vstr "i")])]]) := by
  have hs : hasRegexSel
      (.vdict [("name", .vdict [("$regex", .vstr "^b"), ("$options", .vstr "i")])]) = true := by
    simp only [hasRegexSel, hasRegexEntries, hasRegexEntry,
      Bool.false_eq_true, if_false, Bool.or_false, Bool.true_or,
      (by decide : registryLookup "name" = none),
      (by decide : startsDollar "name" = false),
      (by decide : registryLookup "$regex" = some RegKind.regexK)]
  exact ⟨hs, claim_C7_regex_kv_unsupported libModelRedis
    (.vdict [("name", .vdict [("$regex", .vstr "^b"), ("$options", .vstr "i")])]) hs⟩

/-! ## Claim C2 -/

theorem evalSql_congr (env1 env2 : SqlCol → Option DVal) (f : SqlExpr)
    (h : ∀ col ∈ deepCols f, env1 col = env2 col) :
    evalSql env1 f = evalSql env2 f := by
  refine evalSql.induct env1
    (fun f => (∀ col ∈ deepCols f, env1 col = env2 col) →
      evalSql env1 f = evalSql env2 f)
    (fun es => (∀ col ∈ deepColsList es, env1 col = env2 col) →
      evalSqlAny env1 es = evalSqlAny env2 es)
    (fun es => (∀ col ∈ deepColsList es, env1 col = env2 col) →
      evalSqlAll env1 es = evalSqlAll env2 es)
    ?_ ?_ ?_ ?_ ?_ ?_ ?_ ?_ ?_ ?_ ?_ f h
  · intro op col v hagree
    simp only [evalSql]
    rw [hagree col (by simp [deepCols])]
  · intro r hagree
    simp only [evalSql]
  · intro col pat fl hagree
    simp only [evalSql]
  · intro es ih hagree
    simp only [evalSql]
    exact ih (fun col hc => hagree col (by simp only [deepCols]; exact hc))
  · intro es ih hagree
    simp only [evalSql]
    exact ih (fun col hc => hagree col (by simp only [deepCols]; exact hc))
  · intro e ih hagree
    simp only [evalSql]
    rw [ih (fun col hc => hagree col (by simp only [deepCols]; exact hc))]
  · intro idCol js ws hagree
    simp only [evalSql]
  · intro hagree
    simp only [evalSqlAny]
  · intro e es ih1 ih2 hagree
    simp only [evalSqlAny]
    rw [ih1 (fun col hc => hagree col
        (by simp only [deepColsList]; exact List.mem_append_left _ hc)),
      ih2 (fun col hc => hagree col
        (by simp only [deepColsList]; exact List.mem_append_right _ hc))]
  · intro hagree
    simp only [evalSqlAll]
  · intro e es ih1 ih2 hagree
    simp only [evalSqlAll]
    rw [ih1 (fun col hc => hagree col
        (by simp only [deepColsList]; exact List.mem_append_left _ hc)),
      ih2 (fun col hc => hagree col
        (by simp only [deepColsList]; exact List.mem_append_right _ hc))]

theorem childLeaf_isRel (f : SqlExpr) (h : childLeafFilter f = true) :
    isRelationalFilter f = true := by
  cases f <;> simp only [childLeafFilter] at h <;>
    first
    | exact Bool.noConfusion h
    | (simp only [isRelationalFilter, directCols, List.any_cons, List.any_nil,
        Bool.or_false]
       exact h)

theorem evaluable_not_subquery (f : SqlExpr) (h : evaluableFilter f = true) :
    notSubqueryFilter f = true := by
  cases f <;> first | rfl | exact Bool.noConfusion h

theorem filterOk_parent_of_not_rel (f : SqlExpr) (hok : filterOk f = true)
    (hnr : isRelationalFilter f = false) : parentOnlyFilter f = true := by
  cases hpo : parentOnlyFilter f with
  | true => rfl
  | false =>
    have hcl : childLeafFilter f = true := by
      rw [filterOk, hpo, Bool.false_or] at hok
      exact hok
    rw [childLeaf_isRel f hcl] at hnr
    exact Bool.noConfusion hnr

theorem evalStoreFilter_not_subquery (dbA : SqlDb) (p : LibRec) (c : Option BookRec)
    (f : SqlExpr) (hf : notSubqueryFilter f = true) :
    evalStoreFilter dbA p c f =
      (match c with
       | some cr => evalSql (joinEnv p cr) f
       | none => evalSql (libEnv p) f) := by
  cases f <;> first
    | exact Bool.noConfusion hf
    | rfl

theorem evalSql_joinEnv_of_parentOnly (p : LibRec) (c : BookRec) (f : SqlExpr)
    (hf : parentOnlyFilter f = true) :
    evalSql (joinEnv p c) f = evalSql (libEnv p) f := by
  rw [parentOnlyFilter] at hf
  apply evalSql_congr
  intro col hcol
  have hct : col.table = libTable :=
    of_decide_eq_true ((List.all_eq_true.mp hf) col hcol)
  rw [joinEnv, hct]
  rw [if_neg (by decide : ¬(libTable = bookTable))]

theorem mem_subqueryIds (dbA : SqlDb) (ws : List SqlExpr) (x : Int) :
    x ∈ subqueryIds dbA ["books"] ws ↔
      ∃ q, q ∈ dbA.libs ∧ ∃ c, c ∈ dbA.books ∧
        (c.library_id == some q.id) = true ∧
        (∀ w ∈ ws, evalSql (joinEnv q c) w = true) ∧ q.id = x := by
  rw [subqueryIds]
  simp only [(by decide : ((["books"] : List String).contains "books") = true), if_true]
  simp only [List.mem_flatMap, List.mem_filterMap, List.mem_filter,
    Option.ite_none_right_eq_some, Option.some.injEq, List.all_eq_true]
  constructor
  · rintro ⟨q, hq, c, ⟨hcmem, hlink⟩, hall, hid⟩
    exact ⟨q, hq, c, hcmem, hlink, hall, hid⟩
  · rintro ⟨q, hq, c, hcmem, hlink, hall, hid⟩
    exact ⟨q, hq, c, ⟨hcmem, hlink⟩, hall, hid⟩

theorem getRelationalFilters_join_shape (fs : List SqlExpr)
    (hj : findJoinNeeded fs = true) :
    getRelationalFilters fs =
      [.inSubquery ⟨libTable, "id"⟩ ["books"] (fs.filter isRelationalFilter)] := by
  rw [findJoinNeeded] at hj
  obtain ⟨f0, hf0, hrel0⟩ := List.any_eq_true.mp hj
  have hf0f : f0 ∈ fs.filter isRelationalFilter := List.mem_filter.mpr ⟨hf0, hrel0⟩
  obtain ⟨col, hcolmem, hcoltab⟩ := List.any_eq_true.mp hrel0
  have hbook : bookTable ∈ filteredTables (fs.filter isRelationalFilter) := by
    rw [filteredTables]
    exact List.mem_flatMap.mpr ⟨f0, hf0f,
      List.mem_map.mpr ⟨col, hcolmem, of_decide_eq_true hcoltab⟩⟩
  rw [getRelationalFilters]
  cases hfil : fs.filter isRelationalFilter with
  | nil => rw [hfil] at hf0f; exact absurd hf0f (List.not_mem_nil _)
  | cons r rs =>
    rw [hfil] at hbook
    rw [toSubqueryBasedFilters.eq_def]
    simp [hbook]

theorem sqlFindRows_match (dbA : SqlDb) (fs : List SqlExpr)
    (hns : ∀ f ∈ fs, notSubqueryFilter f = true)
    (p : LibRec) (hpmem : p ∈ sqlFindRows dbA fs) :
    p ∈ dbA.libs ∧
      ((findJoinNeeded fs = false ∧ ∀ f ∈ fs, evalSql (libEnv p) f = true) ∨
       (findJoinNeeded fs = true ∧ ∃ c, c ∈ dbA.books ∧
         (c.library_id == some p.id) = true ∧
         ∀ f ∈ fs, evalSql (joinEnv p c) f = true)) := by
  rw [sqlFindRows] at hpmem
  cases hj : findJoinNeeded fs with
  | false =>
    rw [hj] at hpmem
    simp only [Bool.false_eq_true, if_false] at hpmem
    obtain ⟨hpl, hall⟩ := List.mem_filter.mp hpmem
    refine ⟨hpl, Or.inl ⟨rfl, ?_⟩⟩
    intro f hf
    have hf1 := List.all_eq_true.mp hall f hf
    rw [evalStoreFilter_not_subquery dbA p none f (hns f hf)] at hf1
    exact hf1
  | true =>
    rw [hj] at hpmem
    simp only [eq_self_iff_true, if_true] at hpmem
    simp only [List.mem_flatMap, List.mem_filterMap, List.mem_filter,
      Option.ite_none_right_eq_some, Option.some.injEq, List.all_eq_true] at hpmem
    obtain ⟨q, hq, c, ⟨hcm, hlink⟩, hall, hqp⟩ := hpmem
    subst hqp
    refine ⟨hq, Or.inr ⟨rfl, c, hcm, hlink, ?_⟩⟩
    intro f hf
    have hf1 := hall f hf
    rw [evalStoreFilter_not_subquery dbA q (some c) f (hns f hf)] at hf1
    exact hf1

theorem find_match_imp_del_match (db : SqlDb) (fs : List SqlExpr)
    (hok : ∀ f ∈ fs, filterOk f = true)
    (hns : ∀ f ∈ fs, notSubqueryFilter f = true)
    (p : LibRec) (hp : p ∈ db.libs)
    (hmatch : (findJoinNeeded fs = false ∧ ∀ f ∈ fs, evalSql (libEnv p) f = true) ∨
      (findJoinNeeded fs = true ∧ ∃ c, c ∈ db.books ∧
        (c.library_id == some p.id) = true ∧
        ∀ f ∈ fs, evalSql (joinEnv p c) f = true)) :
    ((getNonRelationalFilters fs ++ getRelationalFilters fs).all
      (fun f => evalStoreFilter db p none f)) = true := by
  rcases hmatch with ⟨hnj, hall⟩ | ⟨hj, c, hcmem, hfk, hall⟩
  · rw [findJoinNeeded] at hnj
    have hrel : fs.filter isRelationalFilter = [] := by
      rw [List.filter_eq_nil_iff]
      intro f hf hrelf
      rw [List.any_eq_true.mpr ⟨f, hf, hrelf⟩] at hnj
      exact Bool.noConfusion hnj
    have hnonrel : getNonRelationalFilters fs = fs := by
      rw [getNonRelationalFilters, List.filter_eq_self]
      intro f hf
      cases hr : isRelationalFilter f with
      | false => rfl
      | true =>
        rw [List.any_eq_true.mpr ⟨f, hf, hr⟩] at hnj
        exact Bool.noConfusion hnj
    rw [hnonrel, getRelationalFilters, hrel,
      (show toSubqueryBasedFilters [] = [] from rfl), List.append_nil,
      List.all_eq_true]
    intro f hf
    rw [evalStoreFilter_not_subquery db p none f (hns f hf)]
    exact hall f hf
  · rw [getRelationalFilters_join_shape fs hj, List.all_append]
    rw [Bool.and_eq_true]
    constructor
    · rw [List.all_eq_true]
      intro f hf
      obtain ⟨hfmem, hnb⟩ := List.mem_filter.mp hf
      have hnr : isRelationalFilter f = false := by
        cases hr : isRelationalFilter f with
        | false => rfl
        | true => rw [hr] at hnb; exact Bool.noConfusion hnb
      have hpar := filterOk_parent_of_not_rel f (hok f hfmem) hnr
      rw [evalStoreFilter_not_subquery db p none f (hns f hfmem)]
      rw [← evalSql_joinEnv_of_parentOnly p c f hpar]
      exact hall f hfmem
    · rw [List.all_cons, List.all_nil, Bool.and_true]
      simp only [evalStoreFilter]
      exact List.elem_iff.mpr ((mem_subqueryIds db (fs.filter isRelationalFilter)
        p.id).mpr ⟨p, hp, c, hcmem, hfk,
          fun w hw => hall w (List.mem_filter.mp hw).1, rfl⟩)

/-- C1 counterexample: a Delete call with the portable query
{books: {$eq: 1}}, a comparison on a relationship attribute.  The claim
asserts every delete call with any filters and/or portable query returns
the pre-deletion find result, but building the sqlalchemy expression for
this query raises InvalidRequestError (a collection relationship cannot be
compared against a non-None value), so the relational delete on the
one-library database raises instead of returning a snapshot (the proof
never inspects the database, so the same holds for every database). -/
theorem claim_C1_relationship_query_counterexample :
    sqlDelete libModelSql
        ⟨[⟨1, [("name", .vstr "x")]⟩], [⟨1, some 1, [("title", .vstr "A")]⟩]⟩ []
        (some (.vdict [("books", .vdict [("$eq", .vint 1)])])) =
      .error .invalidRequestError := by
  have hp : parseSel (⟨some (getSqlNestedField libModelSql), none⟩ : ParseCtx SqlFieldRef)
      (.vdict [("books", .vdict [("$eq", .vint 1)])]) =
      .ok [.fieldP "books" (some (.relAttr "books"))
            [.opP .eq (some (.relAttr "books")) (.vint 1)]] :=
    (parseN_sound 40).1 _ _ _ rfl
  rw [sqlDelete.eq_def]
  simp only [toSqlFilters, hp, toSqlPredList, toSqlPred, Bind.bind, Except.bind,
    pure, Except.pure]

/-- C1 amended: on the document and kv stores in full generality, and on
the relational store for filters inside the column-comparison fragment
(boolean combinations of plain column comparisons, each filter touching
only parent columns or being a bare related-column leaf), delete snapshots
the matching records with a find before issuing the delete and returns
that snapshot, and afterwards the returned records no longer exist in the
store: a find with the same filters finds nothing, and each returned
record is gone.  Outside the fragment the original claim fails on the
relational store: a relationship-comparison query makes the translation
raise (see the counterexample), and a compound filter over related columns
escapes the subquery rewrite and reaches the single-table DELETE
unrewritten. -/
theorem claim_C1_delete_returns_pre_image
    (m : SqlModelT) (db : SqlDb) (filters : List SqlExpr) (query : Option DVal)
    (fs : List SqlExpr)
    (hfs : (match query with
            | none => pure filters
            | some q => do
                let qfs ← toSqlFilters m q
                pure (filters ++ qfs) : Except PyErr (List SqlExpr)) = .ok fs)
    (hok : ∀ f ∈ fs, filterOk f = true)
    (hev : ∀ f ∈ fs, evaluableFilter f = true)
    (mdb : List MDoc) (mfs : List (MDoc → Bool))
    (rm : RedisModelT) (rdb : List RRec) (rfilters : List RedisExpr)
    (rquery : Option DVal) (nql : List RedisExpr)
    (hrq : (match rquery with
            | none => pure []
            | some q => toRedisFilters rm q : Except PyErr (List RedisExpr)) = .ok nql) :
    (∃ post deleted, sqlDelete m db filters query = .ok (post, deleted) ∧
       deleted = sqlFind db fs ∧
       sqlFind post fs = [] ∧
       (∀ w ∈ deleted, w.lib ∉ post.libs)) ∧
    ((mongoDelete mdb mfs).2 = mongoFind mdb mfs ∧
     mongoFind (mongoDelete mdb mfs).1 mfs = [] ∧
     (∀ d ∈ (mongoDelete mdb mfs).2, d ∉ (mongoDelete mdb mfs).1)) ∧
    (∃ post matched, redisDelete rm rdb rfilters rquery = .ok (post, matched) ∧
       matched = redisFind rdb (rfilters ++ nql) ∧
       redisFind post (rfilters ++ nql) = [] ∧
       (∀ r ∈ matched, r ∉ post)) := by
  have hns : ∀ f ∈ fs, notSubqueryFilter f = true :=
    fun f hf => evaluable_not_subquery f (hev f hf)
  refine ⟨?_, ⟨rfl, ?_, ?_⟩, ?_⟩
  · have hdel : sqlDelete m db filters query =
        .ok (⟨db.libs.filter (fun p =>
            !((getNonRelationalFilters fs ++ getRelationalFilters fs).all
              (fun f => evalStoreFilter db p none f))), db.books⟩,
          sqlFind db fs) := by
      cases query with
      | none =>
        simp only [pure, Except.pure, Except.ok.injEq] at hfs
        subst hfs
        rw [sqlDelete.eq_def]
        simp only [Bind.bind, Except.bind, pure, Except.pure]
      | some q =>
        rcases htr : toSqlFilters m q with e | qfs
        · simp only [htr, Bind.bind, Except.bind] at hfs
          exact Except.noConfusion hfs
        · simp only [htr, Bind.bind, Except.bind, pure, Except.pure,
            Except.ok.injEq] at hfs
          subst hfs
          rw [sqlDelete.eq_def]
          simp only [htr, Bind.bind, Except.bind, pure, Except.pure]
    refine ⟨_, _, hdel, rfl, ?_, ?_⟩
    · rw [sqlFind]
      suffices hrows : sqlFindRows
          (⟨db.libs.filter (fun p =>
            !((getNonRelationalFilters fs ++ getRelationalFilters fs).all
              (fun f => evalStoreFilter db p none f))), db.books⟩ : SqlDb) fs = [] by
        rw [hrows]; rfl
      rw [List.eq_nil_iff_forall_not_mem]
      intro p hpmem
      obtain ⟨hppost, hmatch⟩ := sqlFindRows_match _ fs hns p hpmem
      obtain ⟨hpdb, hnot⟩ := List.mem_filter.mp hppost
      rw [find_match_imp_del_match db fs hok hns p hpdb hmatch, Bool.not_true] at hnot
      exact Bool.noConfusion hnot
    · intro w hw hwpost
      rw [sqlFind] at hw
      obtain ⟨p0, hp0rows, heq⟩ := List.mem_map.mp hw
      obtain ⟨hp0db, hmatch⟩ := sqlFindRows_match db fs hns p0 hp0rows
      have hlib : w.lib = p0 := by rw [← heq]
      rw [hlib] at hwpost
      obtain ⟨_, hnot⟩ := List.mem_filter.mp hwpost
      rw [find_match_imp_del_match db fs hok hns p0 hp0db hmatch, Bool.not_true] at hnot
      exact Bool.noConfusion hnot
  · rw [List.eq_nil_iff_forall_not_mem]
    intro d hd
    simp only [mongoDelete, mongoFind] at hd
    obtain ⟨hd1, hall⟩ := List.mem_filter.mp hd
    obtain ⟨hdm, hnall⟩ := List.mem_filter.mp hd1
    rw [hall, Bool.not_true] at hnall
    exact Bool.noConfusion hnall
  · intro d hd hdpost
    simp only [mongoDelete, mongoFind] at hd hdpost
    obtain ⟨hdm, hall⟩ := List.mem_filter.mp hd
    obtain ⟨_, hnall⟩ := List.mem_filter.mp hdpost
    rw [hall, Bool.not_true] at hnall
    exact Bool.noConfusion hnall
  · have hrdel : redisDelete rm rdb rfilters rquery =
        .ok (rdb.filter (fun r =>
            !(((redisFind rdb (rfilters ++ nql)).map (fun r2 => r2.pk)).contains r.pk)),
          redisFind rdb (rfilters ++ nql)) := by
      cases rquery with
      | none =>
        simp only [pure, Except.pure, Except.ok.injEq] at hrq
        subst hrq
        rw [redisDelete.eq_def]
        simp only [Bind.bind, Except.bind, pure, Except.pure]
      | some q =>
        rcases htr : toRedisFilters rm q with e | nq
        · simp only [htr] at hrq
          exact Except.noConfusion hrq
        · simp only [htr, Except.ok.injEq] at hrq
          subst hrq
          rw [redisDelete.eq_def]
          simp only [htr, Bind.bind, Except.bind, pure, Except.pure]
    refine ⟨_, _, hrdel, rfl, ?_, ?_⟩
    · rw [List.eq_nil_iff_forall_not_mem]
      intro r hr
      rw [redisFind] at hr
      obtain ⟨hrpost, hall⟩ := List.mem_filter.mp hr
      obtain ⟨hrdb2, hnc⟩ := List.mem_filter.mp hrpost
      have hrmatched : r ∈ redisFind rdb (rfilters ++ nql) :=
        List.mem_filter.mpr ⟨hrdb2, hall⟩
      have hc : ((redisFind rdb (rfilters ++ nql)).map
          (fun r2 => r2.pk)).contains r.pk = true :=
        List.elem_iff.mpr (List.mem_map_of_mem _ hrmatched)
      rw [hc, Bool.not_true] at hnc
      exact Bool.noConfusion hnc
    · intro r hr hrpost
      obtain ⟨hrdb2, hnc⟩ := List.mem_filter.mp hrpost
      have hc : ((redisFind rdb (rfilters ++ nql)).map
          (fun r2 => r2.pk)).contains r.pk = true :=
        List.elem_iff.mpr (List.mem_map_of_mem _ hr)
      rw [hc, Bool.not_true] at hnc
      exact Bool.noConfusion hnc

/-- C1 witness: the claim applied to concrete one-record stores with one
matching column filter each and no portable query. -/
theorem claim_C1_delete_returns_pre_image_witness :
    ((match (none : Option DVal) with
      | none => pure [SqlExpr.cmp .eq ⟨libTable, "id"⟩ (.vint 1)]
      | some q => do
          let qfs ← toSqlFilters libModelSql q
          pure ([SqlExpr.cmp .eq ⟨libTable, "id"⟩ (.vint 1)] ++ qfs)
        : Except PyErr (List SqlExpr)) =
      .ok [SqlExpr.cmp .eq ⟨libTable, "id"⟩ (.vint 1)]) ∧
    (∀ f ∈ [SqlExpr.cmp .eq ⟨libTable, "id"⟩ (.vint 1)], filterOk f = true) ∧
    (∀ f ∈ [SqlExpr.cmp .eq ⟨libTable, "id"⟩ (.vint 1)], evaluableFilter f = true) ∧
    ((match (none : Option DVal) with
      | none => pure []
      | some q => toRedisFilters libModelRedis q : Except PyErr (List RedisExpr)) =
      .ok []) ∧
    ((∃ post deleted, sqlDelete libModelSql
          ⟨[⟨1, [("name", DVal.vstr "x")]⟩], [⟨1, some 1, [("title", DVal.vstr "A")]⟩]⟩
          [SqlExpr.cmp .eq ⟨libTable, "id"⟩ (.vint 1)] none = .ok (post, deleted) ∧
        deleted = sqlFind
          ⟨[⟨1, [("name", DVal.vstr "x")]⟩], [⟨1, some 1, [("title", DVal.vstr "A")]⟩]⟩
          [SqlExpr.cmp .eq ⟨libTable, "id"⟩ (.vint 1)] ∧
        sqlFind post [SqlExpr.cmp .eq ⟨libTable, "id"⟩ (.vint 1)] = [] ∧
        (∀ w ∈ deleted, w.lib ∉ post.libs)) ∧
     ((mongoDelete [(⟨1, [("tag", DVal.vstr "t")]⟩ : MDoc)] [fun d => d.id == 1]).2 =
        mongoFind [(⟨1, [("tag", DVal.vstr "t")]⟩ : MDoc)] [fun d => d.id == 1] ∧
      mongoFind (mongoDelete [(⟨1, [("tag", DVal.vstr "t")]⟩ : MDoc)]
          [fun d => d.id == 1]).1 [fun d => d.id == 1] = [] ∧
      (∀ d ∈ (mongoDelete [(⟨1, [("tag", DVal.vstr "t")]⟩ : MDoc)]
          [fun d => d.id == 1]).2,
        d ∉ (mongoDelete [(⟨1, [("tag", DVal.vstr "t")]⟩ : MDoc)]
          [fun d => d.id == 1]).1)) ∧
     (∃ post matched, redisDelete libModelRedis
          [(⟨"k1", [("name", DVal.vstr "x")]⟩ : RRec)]
          [RedisExpr.cmp .eq "name" (.vstr "x")] none = .ok (post, matched) ∧
        matched = redisFind [(⟨"k1", [("name", DVal.vstr "x")]⟩ : RRec)]
          ([RedisExpr.cmp .eq "name" (.vstr "x")] ++ []) ∧
        redisFind post ([RedisExpr.cmp .eq "name" (.vstr "x")] ++ []) = [] ∧
        (∀ r ∈ matched, r ∉ post))) := by
  refine ⟨rfl, by decide, by decide, rfl, ?_⟩
  exact claim_C1_delete_returns_pre_image libModelSql
    ⟨[⟨1, [("name", DVal.vstr "x")]⟩], [⟨1, some 1, [("title", DVal.vstr "A")]⟩]⟩
    [SqlExpr.cmp .eq ⟨libTable, "id"⟩ (.vint 1)] none
    [SqlExpr.cmp .eq ⟨libTable, "id"⟩ (.vint 1)] rfl (by decide) (by decide)
    [(⟨1, [("tag", DVal.vstr "t")]⟩ : MDoc)] [fun d => d.id == 1]
    libModelRedis [(⟨"k1", [("name", DVal.vstr "x")]⟩ : RRec)]
    [RedisExpr.cmp .eq "name" (.vstr "x")] none [] rfl

end NqlStore
